import Mathlib

/-!
# Verification of the EliteDangerousBackup transfer engine

A shallow embedding of the backup execution engine of the repository:
`src/backup/worker.py` (class `BackupWorker`), `src/backup/engines.py`
(`iter_files_under`, `count_total_files`, `is_unchanged`), `src/windows.py`
(`win_longpath`) and the near-identical second copy of all of these embedded
in `src/main.py`.

Modelling conventions:
* The filesystem is split into a static part (`World`: directory predicate,
  per-root file enumeration, per-path read permission, per-path create/open
  failure switch) and a mutable part (`StatMap`: `os.stat` results).  Only
  stats change during a run (via `shutil.copy2`), matching the engine which
  never deletes and whose own writes are the only mutations it later observes.
* `os.walk`-based enumeration (`iter_files_under`) is abstracted as the
  `World.walk` field: a fixed, finite `(absolute_path, relative_path)` list
  per root (the stable-filesystem assumption of the spec).
* Python exceptions are modelled as `Option`/explicit failure switches; the
  text of a caught exception (`str(e)`) is abstracted by `oserror_text` and
  `traceback.format_exc()` by `traceback_text`.
* `st_mtime` (a Python float, seconds) is modelled as a rational number;
  `st_size` as a natural number.
* Path separators are normalised to `"/"`: `os.path.join` is modelled by
  `joinPath`, `os.path.basename`/`dirname` by simplified POSIX-style string
  helpers.  The `.replace("\\", "/")` arcname normalisation is the
  character-wise `replaceBackslash`.
* The UI queue is modelled by the list of emitted `Event`s, in emission
  order; the `stop_flag` (a monotone false→true boolean set externally and
  polled once per file) is modelled by `stopAt : Option Nat` — the poll made
  after `i` files have been processed reads `true` iff the flag was set
  after `k ≤ i` files (`stopRead`).
* `os.makedirs(..., exist_ok=True)` on per-file destination directories is
  modelled as always succeeding; the three fatal creation points the top
  level `run` can see (target directory, zip container, mirror log file) are
  modelled by the `World.createFails` switch.
-/

/-- Result of a successful `os.stat`: the two fields the program reads. -/
structure Stat where
  st_size : Nat
  st_mtime : ℚ
deriving DecidableEq, Repr

/-- The mutable part of the filesystem: `os.stat` results (`none` = stat raises). -/
abbrev StatMap := String → Option Stat

/-- The static part of the filesystem during one run. -/
structure World where
  /-- `os.path.isdir` -/
  isdir : String → Bool
  /-- the `(src, rel)` pairs `iter_files_under` yields beneath a root -/
  walk : String → List (String × String)
  /-- whether opening/reading this source path for a copy or archive write succeeds -/
  readable : String → Bool
  /-- whether creating/opening this path (target dir, zip container, log file) raises -/
  createFails : String → Bool

/-- Ambient host environment read by the engine. -/
structure Env where
  /-- `sys.platform == "win32"` -/
  is_win32 : Bool
  /-- `os.path.abspath` -/
  abspath : String → String
  /-- `os.environ.get("COMPUTERNAME")` -/
  computername : Option String
  /-- `datetime.now().strftime("%Y%m%d_%H%M%S")` at `_mk_backup_target` time -/
  now_ts : String
  /-- `datetime.now().isoformat()` at mirror-log-header time -/
  now_iso : String

/-- A message placed on the `ui_queue`:
`('log'|'progress'|'done'|'failed'|'cancelled', payload)`. -/
inductive Event where
  | log (msg : String)
  | progress (done total : Nat)
  | done (target : String)
  | cancelled
  | failed (msg : String)
deriving DecidableEq, Repr

/-- Terminal events: `done`, `cancelled`, `failed`. -/
def Event.isTerminal : Event → Bool
  | .done _ => true
  | .cancelled => true
  | .failed _ => true
  | _ => false

/-- Abstraction of the text of a caught OS exception (`str(e)`). -/
def oserror_text : String := "OSError"

/-- Abstraction of `traceback.format_exc()`. -/
def traceback_text : String := "<traceback>"

/-- The log message of the top-level `except Exception` handler:
`f"Fatal error: {e}\n{tb}"`. -/
def fatal_log : String := "Fatal error: " ++ oserror_text ++ "\n" ++ traceback_text

/-- `os.path.join`, with the separator normalised to `/`. -/
def joinPath (a b : String) : String := a ++ "/" ++ b

/-- Split a character list at `/` (structural equivalent of
`str.split("/")`, used to keep the model kernel-executable). -/
def splitSlash : List Char → List (List Char)
  | [] => [[]]
  | c :: cs =>
    match splitSlash cs with
    | [] => [[]]
    | g :: gs => if c == '/' then [] :: g :: gs else (c :: g) :: gs

/-- Join character-list path components with `/`. -/
def joinSlash : List (List Char) → List Char
  | [] => []
  | [g] => g
  | g :: gs => g ++ '/' :: joinSlash gs

/-- `os.path.basename`, simplified POSIX-style. -/
def basename (p : String) : String := String.mk ((splitSlash p.data).getLastD [])

/-- `os.path.dirname`, simplified POSIX-style. -/
def dirname (p : String) : String :=
  let parts := splitSlash p.data
  if parts.length ≤ 1 then "" else String.mk (joinSlash parts.dropLast)

/-- The per-root destination tag:
`parent = basename(dirname(root)); leaf = basename(root);`
`tagged_base = f"{parent}__{leaf}" if parent else leaf`. -/
def tagged_base_of (root : String) : String :=
  let parent := basename (dirname root)
  let leaf := basename root
  if parent ≠ "" then parent ++ "__" ++ leaf else leaf

/-- Character-wise replacement of `\` by `/` (structural equivalent of
`.replace("\\", "/")` for the single-character pattern). -/
def replaceBackslash (s : String) : String :=
  String.mk (s.data.map fun c => if c == '\\' then '/' else c)

/-- The arcname of a zipped file:
`os.path.join(tagged_base, rel_path).replace("\\", "/")`. -/
def arcnameOf (tagged_base rel : String) : String :=
  replaceBackslash (joinPath tagged_base rel)

/-- `iter_files_under` (src/backup/engines.py lines 3-8; identical copy in
src/main.py): enumeration of `(src, rel)` pairs under a root, abstracted as
the world's `walk` field. -/
def iter_files_under (w : World) (root_dir : String) : List (String × String) :=
  w.walk root_dir

/-- `count_total_files` (src/backup/engines.py lines 10-15; identical copy in
src/main.py): total number of enumerated files across the given roots. -/
def count_total_files (w : World) (existing_sources : List String) : Nat :=
  ((existing_sources.map fun s => (iter_files_under w s).length)).sum

/-- `os.path.exists`: true for a stat-able file or a directory. -/
def pathExists (w : World) (st : StatMap) (p : String) : Bool :=
  (st p).isSome || w.isdir p

/-- `is_unchanged` (src/backup/engines.py lines 17-27; identical copy in
src/main.py lines 248-261): destination exists, sizes equal, mtimes within
`mtime_slop`; any stat failure is caught and yields `False`. -/
def is_unchanged (w : World) (st : StatMap) (src_file dst_file : String)
    (mtime_slop : ℚ := 1) : Bool :=
  if !(pathExists w st dst_file) then false
  else
    match st src_file, st dst_file with
    | some s_stat, some d_stat =>
        if s_stat.st_size ≠ d_stat.st_size then false
        else decide (|s_stat.st_mtime - d_stat.st_mtime| ≤ mtime_slop)
    | _, _ => false

/-- Whether reading `src` for a copy or archive write succeeds. -/
def file_op_ok (w : World) (st : StatMap) (src : String) : Bool :=
  w.readable src && (st src).isSome

/-- `shutil.copy2(src, dst)`: copies content and metadata, so on success the
destination's stat becomes the source's stat; `none` models a raised
`OSError` (unreadable or un-stat-able source, write failure). -/
def copy2 (w : World) (st : StatMap) (src dst : String) : Option StatMap :=
  if file_op_ok w st src then
    match st src with
    | some s => some (fun p => if p = dst then some s else st p)
    | none => none
  else none

/-- The externally-set monotone `stop_flag`, as read by the poll made after
`i` files have been processed: true iff the flag was set after `k ≤ i` files. -/
def stopRead (stopAt : Option Nat) (i : Nat) : Bool :=
  match stopAt with
  | none => false
  | some k => k ≤ i

/-- `BackupWorker` constructor state (src/backup/worker.py lines 18-26;
identical copy in src/main.py lines 477-485).  The `ui_queue` is modelled by
the returned event list, `stop_flag` by `stopAt`, `errors` by run state. -/
structure BackupWorker where
  sources : List String
  dest_root : String
  zip_mode : Bool
  incremental : Bool

/-- `BackupWorker.__init__`: `self.incremental = incremental if not zip_mode
else False`. -/
def BackupWorker.init (sources : List String) (dest_root : String)
    (zip_mode : Bool) (incremental : Bool) : BackupWorker :=
  { sources := sources
    dest_root := dest_root
    zip_mode := zip_mode
    incremental := if zip_mode then false else incremental }

/-- The path computed by `_mk_backup_target` (src/backup/worker.py lines
31-39): `EliteDangerousBackup_{computer}_{ts}` with optional `.zip`.  The
directory creation side effect of the mirror branch is handled in the run
function via `createFails`. -/
def mk_backup_target (env : Env) (dest_root : String) (zip_mode : Bool) : String :=
  let computer := env.computername.getD "UNKNOWNPC"
  if zip_mode then
    joinPath dest_root ("EliteDangerousBackup_" ++ computer ++ "_" ++ env.now_ts ++ ".zip")
  else
    joinPath dest_root ("EliteDangerousBackup_" ++ computer ++ "_" ++ env.now_ts)

/-- `existing = [s for s in self.sources if s and os.path.isdir(s)]` -/
def existingSources (w : World) (bw : BackupWorker) : List String :=
  bw.sources.filter fun s => !(s == "") && w.isdir s

/-- `missing = [s for s in self.sources if not s or not os.path.isdir(s)]` -/
def missingSources (w : World) (bw : BackupWorker) : List String :=
  bw.sources.filter fun s => (s == "") || !(w.isdir s)

/-- The header block `_run_mirror` writes to `backup_log.txt` (one string per
line; the trailing `\n\n` yields the final empty line). -/
def mirrorHeader (env : Env) (backup_dir : String) (incremental : Bool) : List String :=
  [ "Elite Dangerous Backup Log (Mirror) - " ++ env.now_iso
  , "Destination: " ++ backup_dir
  , "Incremental: " ++ (if incremental then "ON" else "OFF")
  , "" ]

/-- The progress-coalescing condition `count % 5 == 0 or count == total_files`. -/
def progressCond (total d : Nat) : Bool := d % 5 == 0 || d == total

/-- The mirror log line `f"SKIP: {src_file}"`. -/
def mirrorSkipLine (pr : String × String) : String := "SKIP: " ++ pr.1

/-- The mirror log line `f"COPY: {src_file} -> {dest_file}"`. -/
def mirrorCopyLine (dest_base : String) (pr : String × String) : String :=
  "COPY: " ++ pr.1 ++ " -> " ++ joinPath dest_base pr.2

/-- The mirror error line `f"[ERROR] {src_file} -> {dest_file}: {e}"`. -/
def mirrorErrLine (dest_base : String) (pr : String × String) : String :=
  "[ERROR] " ++ pr.1 ++ " -> " ++ joinPath dest_base pr.2 ++ ": " ++ oserror_text

/-- The zip log line `f"ZIP: {src_file} -> {arcname}"`. -/
def zipOkLine (tagged_base : String) (pr : String × String) : String :=
  "ZIP: " ++ pr.1 ++ " -> " ++ arcnameOf tagged_base pr.2

/-- The zip error line `f"[ERROR] ZIP {src_file} -> {arcname}: {e}"`. -/
def zipErrLine (tagged_base : String) (pr : String × String) : String :=
  "[ERROR] ZIP " ++ pr.1 ++ " -> " ++ arcnameOf tagged_base pr.2 ++ ": " ++ oserror_text

/-- Mutable state of `_run_mirror`: the stat map, the log-file lines written
so far, `self.errors`, the `done` counter, the emitted events, and
bookkeeping of the successful `(src, dest)` copies. -/
structure MSt where
  stat : StatMap
  lines : List String
  errors : List String
  done : Nat
  events : List Event
  copied : List (String × String)

/-- One iteration of the per-file loop of `_run_mirror` (src/backup/worker.py
lines 106-121), after the `stop_flag` poll: skip-or-copy inside `try`, then
`done += 1` and the coalesced progress event.  The per-file
`os.makedirs(dest_dir, exist_ok=True)` is modelled as always succeeding. -/
def mirrorFile (lp : String → String) (w : World) (incremental : Bool)
    (dest_base : String) (total : Nat) (st : MSt) (pr : String × String) : MSt :=
  let src_file := pr.1
  let dest_file := joinPath dest_base pr.2
  let st1 :=
    if incremental && pathExists w st.stat dest_file &&
        is_unchanged w st.stat src_file dest_file then
      { st with lines := st.lines ++ [mirrorSkipLine pr] }
    else
      match copy2 w st.stat (lp src_file) (lp dest_file) with
      | some m =>
          { st with
            stat := m
            lines := st.lines ++ [mirrorCopyLine dest_base pr]
            copied := st.copied ++ [(src_file, dest_file)] }
      | none =>
          let err := mirrorErrLine dest_base pr
          { st with
            errors := st.errors ++ [err]
            lines := st.lines ++ [err]
            events := st.events ++ [.log err] }
  let st2 := { st1 with done := st1.done + 1 }
  if progressCond total st2.done then
    { st2 with events := st2.events ++ [.progress st2.done (max total 1)] }
  else st2

/-- The per-file loop of `_run_mirror` over one root's enumeration.  The
second component is `true` iff the loop was aborted by the
`KeyboardInterrupt` raised on observing `stop_flag`. -/
def mirrorFiles (lp : String → String) (w : World) (incremental : Bool)
    (dest_base : String) (stopAt : Option Nat) (total : Nat) :
    List (String × String) → MSt → MSt × Bool
  | [], st => (st, false)
  | pr :: rest, st =>
    if stopRead stopAt st.done then (st, true)
    else mirrorFiles lp w incremental dest_base stopAt total rest
      (mirrorFile lp w incremental dest_base total st pr)

/-- The per-root loop of `_run_mirror` (src/backup/worker.py lines 99-121):
derive the tag, log `Copying:`, create the per-root directory (modelled as
succeeding), then run the per-file loop, propagating the interrupt. -/
def mirrorRoots (lp : String → String) (w : World) (incremental : Bool)
    (stopAt : Option Nat) (total : Nat) (backup_dir : String) :
    List String → MSt → MSt × Bool
  | [], st => (st, false)
  | root :: rest, st =>
    let dest_base := joinPath backup_dir (tagged_base_of root)
    let st1 := { st with
      events := st.events ++ [.log ("Copying: " ++ root ++ " -> " ++ dest_base)] }
    match mirrorFiles lp w incremental dest_base stopAt total (iter_files_under w root) st1 with
    | (st2, true) => (st2, true)
    | (st2, false) => mirrorRoots lp w incremental stopAt total backup_dir rest st2

/-- Mutable state of `_run_zip`: archive entries written so far (as
`(path_passed_to_write, arcname)`), the `log_lines` list, `self.errors`, the
`count` counter and the emitted events. -/
structure ZSt where
  entries : List (String × String)
  log_lines : List String
  errors : List String
  count : Nat
  events : List Event

/-- One iteration of the per-file loop of `_run_zip` (src/backup/worker.py
lines 77-87), after the `stop_flag` poll. -/
def zipFile (lp : String → String) (w : World) (stat0 : StatMap)
    (tagged_base : String) (total : Nat) (z : ZSt) (pr : String × String) : ZSt :=
  let arcname := arcnameOf tagged_base pr.2
  let z1 :=
    if file_op_ok w stat0 (lp pr.1) then
      { z with
        entries := z.entries ++ [(lp pr.1, arcname)]
        log_lines := z.log_lines ++ [zipOkLine tagged_base pr] }
    else
      let err := zipErrLine tagged_base pr
      { z with
        errors := z.errors ++ [err]
        log_lines := z.log_lines ++ [err]
        events := z.events ++ [.log err] }
  let z2 := { z1 with count := z1.count + 1 }
  if progressCond total z2.count then
    { z2 with events := z2.events ++ [.progress z2.count (max total 1)] }
  else z2

/-- The per-file loop of `_run_zip` over one root's enumeration. -/
def zipFiles (lp : String → String) (w : World) (stat0 : StatMap)
    (tagged_base : String) (stopAt : Option Nat) (total : Nat) :
    List (String × String) → ZSt → ZSt × Bool
  | [], z => (z, false)
  | pr :: rest, z =>
    if stopRead stopAt z.count then (z, true)
    else zipFiles lp w stat0 tagged_base stopAt total rest
      (zipFile lp w stat0 tagged_base total z pr)

/-- The per-root loop of `_run_zip` (src/backup/worker.py lines 73-87). -/
def zipRoots (lp : String → String) (w : World) (stat0 : StatMap)
    (stopAt : Option Nat) (total : Nat) :
    List String → ZSt → ZSt × Bool
  | [], z => (z, false)
  | root :: rest, z =>
    let tagged_base := tagged_base_of root
    let z1 := { z with
      events := z.events ++ [.log ("Zipping: " ++ root ++ " -> /" ++ tagged_base ++ "/")] }
    match zipFiles lp w stat0 tagged_base stopAt total (iter_files_under w root) z1 with
    | (z2, true) => (z2, true)
    | (z2, false) => zipRoots lp w stat0 stopAt total rest z2

/-- The observable outcome of one `BackupWorker.run` invocation. -/
structure RunResult where
  /-- the `ui_queue` contents, in emission order -/
  events : List Event
  /-- `self.errors` at run end -/
  errors : List String
  /-- the stat map after the run (mirror copies persist; no rollback) -/
  stat : StatMap
  /-- the `_mk_backup_target` path of this run -/
  target : String
  /-- lines of the mirror `backup_log.txt`, if that file was opened -/
  mirrorLog : Option (List String)
  /-- archive members written, as `(path_passed_to_write, arcname)` -/
  zipEntries : List (String × String)
  /-- content of the `backup_log.txt` archive member, if it was written -/
  zipLogMember : Option String
  /-- bookkeeping: the successful transfers `(src, dest-or-arcname)` -/
  copied : List (String × String)
  /-- final value of the per-file counter (`done` / `count`) -/
  filesProcessed : Nat

/-- The summary log line `run` emits before `("done", target)`. -/
def summaryLine (errors : List String) : String :=
  if errors.isEmpty then "Backup completed successfully. No errors reported."
  else "Completed with " ++ toString errors.length ++ " error(s). See log for details."

/-- `BackupWorker.run` (src/backup/worker.py lines 41-66), parameterised by
the `win_longpath` helper `lp` the hosting file uses.  The bodies of the two
Python copies of the worker (src/backup/worker.py plus src/backup/engines.py,
and the copy embedded in src/main.py) are line-for-line identical up to
formatting and up to which `win_longpath` definition is in scope, which is
why they share this single embedding body. -/
def engineRun (lp : String → String) (env : Env) (w : World) (stat0 : StatMap)
    (bw : BackupWorker) (stopAt : Option Nat) : RunResult :=
  let existing := existingSources w bw
  let missing := missingSources w bw
  let warns := missing.map fun m =>
    Event.log ("[WARN] Source not found or unset (skipping): " ++ m)
  let total_files := count_total_files w existing
  let ev0 := warns ++ [Event.progress 0 (max total_files 1)]
  if bw.zip_mode then
    let target := mk_backup_target env bw.dest_root true
    let ev1 := ev0 ++ [Event.log ("ZIP mode: " ++ target)]
    if w.createFails target then
      -- zipfile.ZipFile(archive_path, "w") raises; caught by `except Exception`
      { events := ev1 ++ [.log fatal_log, .failed oserror_text]
        errors := [], stat := stat0, target := target, mirrorLog := none
        zipEntries := [], zipLogMember := none, copied := [], filesProcessed := 0 }
    else
      let z0 : ZSt := ⟨[], [], [], 0, ev1⟩
      match zipRoots lp w stat0 stopAt total_files (existingSources w bw) z0 with
      | (z, true) =>
        -- KeyboardInterrupt: the `with` closes the archive without writing
        -- the backup_log.txt member
        { events := z.events ++ [.log "Backup cancelled by user.", .cancelled]
          errors := z.errors, stat := stat0, target := target, mirrorLog := none
          zipEntries := z.entries, zipLogMember := none, copied := z.entries
          filesProcessed := z.count }
      | (z, false) =>
        { events := z.events ++ [.log (summaryLine z.errors), .done target]
          errors := z.errors, stat := stat0, target := target, mirrorLog := none
          zipEntries := z.entries
          zipLogMember := some (String.intercalate "\n" z.log_lines)
          copied := z.entries, filesProcessed := z.count }
  else
    let target := mk_backup_target env bw.dest_root false
    if w.createFails target then
      -- os.makedirs(dst) in _mk_backup_target raises; caught by `except Exception`
      { events := ev0 ++ [.log fatal_log, .failed oserror_text]
        errors := [], stat := stat0, target := target, mirrorLog := none
        zipEntries := [], zipLogMember := none, copied := [], filesProcessed := 0 }
    else
      let ev1 := ev0 ++ [Event.log ("Mirror mode: " ++ target)]
      let log_path := joinPath target "backup_log.txt"
      if w.createFails log_path then
        -- open(log_path, "w") raises; caught by `except Exception`
        { events := ev1 ++ [.log fatal_log, .failed oserror_text]
          errors := [], stat := stat0, target := target, mirrorLog := none
          zipEntries := [], zipLogMember := none, copied := [], filesProcessed := 0 }
      else
        let m0 : MSt := ⟨stat0, [], [], 0, ev1, []⟩
        match mirrorRoots lp w bw.incremental stopAt total_files target
            (existingSources w bw) m0 with
        | (m, true) =>
          { events := m.events ++ [.log "Backup cancelled by user.", .cancelled]
            errors := m.errors, stat := m.stat, target := target
            mirrorLog := some (mirrorHeader env target bw.incremental ++ m.lines)
            zipEntries := [], zipLogMember := none, copied := m.copied
            filesProcessed := m.done }
        | (m, false) =>
          { events := m.events ++ [.log (summaryLine m.errors), .done target]
            errors := m.errors, stat := m.stat, target := target
            mirrorLog := some (mirrorHeader env target bw.incremental ++ m.lines)
            zipEntries := [], zipLogMember := none, copied := m.copied
            filesProcessed := m.done }

/-- Structural equivalent of `str.startswith` on character lists. -/
def charsStartWith : List Char → List Char → Bool
  | _, [] => true
  | [], _ :: _ => false
  | c :: cs, p :: ps => c == p && charsStartWith cs ps

/-- Structural equivalent of Python's `p.startswith(pre)` (kept
kernel-executable). -/
def strStartsWith (s pre : String) : Bool := charsStartWith s.data pre.data

namespace Windows

/-- `win_longpath` from src/windows.py lines 58-65: returns the path
unchanged off Windows; on Windows prefixes `\\?\` to long paths. -/
def win_longpath (env : Env) (p : String) : String :=
  if env.is_win32 = false then p
  else if strStartsWith p "\\\\?\\" || strStartsWith p "\\\\" then p
  else if 240 ≤ p.length then "\\\\?\\" ++ env.abspath p
  else p

end Windows

namespace MainPy

/-- `win_longpath` from src/main.py lines 224-229: same as the
src/windows.py version but without the `sys.platform != "win32"` guard. -/
def win_longpath (env : Env) (p : String) : String :=
  if strStartsWith p "\\\\?\\" || strStartsWith p "\\\\" then p
  else if 240 ≤ p.length then "\\\\?\\" ++ env.abspath p
  else p

end MainPy

/-- The run of the `BackupWorker` of src/backup/worker.py, which imports
`win_longpath` from src/windows.py. -/
def WorkerPy.run (env : Env) (w : World) (stat0 : StatMap) (bw : BackupWorker)
    (stopAt : Option Nat) : RunResult :=
  engineRun (Windows.win_longpath env) env w stat0 bw stopAt

/-- The run of the `BackupWorker` embedded in src/main.py, which uses the
`win_longpath` defined in src/main.py itself. -/
def MainPy.run (env : Env) (w : World) (stat0 : StatMap) (bw : BackupWorker)
    (stopAt : Option Nat) : RunResult :=
  engineRun (MainPy.win_longpath env) env w stat0 bw stopAt

/-- The `(src, dest_file)` pairs the mirror loop processes under one root. -/
def mirrorPlanRoot (w : World) (backup_dir root : String) : List (String × String) :=
  (iter_files_under w root).map fun pr =>
    (pr.1, joinPath (joinPath backup_dir (tagged_base_of root)) pr.2)

/-- The `(src, dest_file)` pairs the mirror loop processes, across roots. -/
def mirrorPlan (w : World) (backup_dir : String) (roots : List String) :
    List (String × String) :=
  (roots.map (mirrorPlanRoot w backup_dir)).flatten

/-- The `(src, arcname)` pairs the zip loop processes under one root. -/
def zipPlanRoot (w : World) (root : String) : List (String × String) :=
  (iter_files_under w root).map fun pr => (pr.1, arcnameOf (tagged_base_of root) pr.2)

/-- The `(src, arcname)` pairs the zip loop processes, across roots. -/
def zipPlan (w : World) (roots : List String) : List (String × String) :=
  (roots.map (zipPlanRoot w)).flatten

/-- The global enumeration of `(src, rel)` pairs across roots. -/
def enumerated (w : World) (roots : List String) : List (String × String) :=
  (roots.map (iter_files_under w)).flatten

/-- The `(done, total)` payloads of the progress events of an event list. -/
def progressEvents (es : List Event) : List (Nat × Nat) :=
  es.filterMap fun e =>
    match e with
    | .progress d t => some (d, t)
    | _ => none

/-- A log-file line concerning a given source file: a `SKIP:`, `COPY:` or
`[ERROR]` line naming it. -/
def entryFor (src line : String) : Prop :=
  (∃ r, line = "SKIP: " ++ src ++ r) ∨
  (∃ r, line = "COPY: " ++ src ++ r) ∨
  (∃ r, line = "[ERROR] " ++ src ++ r)

/-- Events a per-file loop may emit: log lines and progress reports carrying
`max total 1` as denominator. -/
def evOK (total : Nat) (e : Event) : Prop :=
  (∃ m, e = .log m) ∨ (∃ d, e = .progress d (max total 1))

/-- The list `[d0+1, d0+2, ..., d0+L]` of `done` values a per-file loop
steps through. -/
def pRange (d0 : Nat) : Nat → List Nat
  | 0 => []
  | L + 1 => (d0 + 1) :: pRange (d0 + 1) L

/-! ### Concrete fixtures used by witnesses and counterexamples -/

/-- A host environment: non-Windows, machine `PC`, run timestamp `T1`. -/
def envT1 : Env := ⟨false, fun p => p, some "PC", "T1", "I1"⟩

/-- Same host, but a run started one second later (timestamp `T2`). -/
def envT2 : Env := ⟨false, fun p => p, some "PC", "T2", "I2"⟩

/-- A Windows host environment. -/
def envWin : Env := ⟨true, fun p => p, some "PC", "T1", "I1"⟩

/-- A world with one source directory `s` holding one file `s/a`. -/
def wOne : World :=
  ⟨fun p => p == "s",
   fun p => if p == "s" then [("s/a", "a")] else [],
   fun _ => true,
   fun _ => false⟩

/-- Stats for `wOne`: only `s/a` exists (size 1, mtime 0). -/
def stOne : StatMap := fun p => if p == "s/a" then some ⟨1, 0⟩ else none

/-- A world with one source directory `s` holding files `s/a` and `s/b`. -/
def wTwo : World :=
  ⟨fun p => p == "s",
   fun p => if p == "s" then [("s/a", "a"), ("s/b", "b")] else [],
   fun _ => true,
   fun _ => false⟩

/-- Stats for `wTwo`. -/
def stTwo : StatMap :=
  fun p => if p == "s/a" || p == "s/b" then some ⟨1, 0⟩ else none

/-- A world with three files under `s`, of which `s/b` is unreadable. -/
def wFail : World :=
  ⟨fun p => p == "s",
   fun p => if p == "s" then [("s/a", "a"), ("s/b", "b"), ("s/c", "c")] else [],
   fun p => !(p == "s/b"),
   fun _ => false⟩

/-- Stats for `wFail`: all three files stat fine. -/
def stFail : StatMap :=
  fun p => if p == "s/a" || p == "s/b" || p == "s/c" then some ⟨1, 0⟩ else none

/-- A world whose only source directory `s` is empty (zero files). -/
def wEmpty : World :=
  ⟨fun p => p == "s", fun _ => [], fun _ => true, fun _ => false⟩

/-- A source file path of length 240 (`s/` plus 238 `a`s). -/
def longSrc : String := "s/" ++ String.mk (List.replicate 238 'a')

/-- A world with one source directory `s` holding the long-named file. -/
def wLong : World :=
  ⟨fun p => p == "s",
   fun p => if p == "s" then [(longSrc, "a")] else [],
   fun _ => true,
   fun _ => false⟩

/-- Stats for `wLong`: only the long path itself stats. -/
def stLong : StatMap := fun p => if p == longSrc then some ⟨1, 0⟩ else none

/-- The mirror-mode incremental worker over source `s`, destination `d`. -/
def bwMirror : BackupWorker := BackupWorker.init ["s"] "d" false true

/-- The mirror-mode non-incremental worker over source `s`, destination `d`. -/
def bwMirrorNoInc : BackupWorker := BackupWorker.init ["s"] "d" false false

/-- The archive-mode worker over source `s`, destination `d`. -/
def bwZip : BackupWorker := BackupWorker.init ["s"] "d" true true

/-- Stat fixture for the change-detector witnesses: `a` (size 5, mtime 0),
`b` (size 5, mtime 1: boundary), `c` (size 6: one byte larger), `e` (size 5,
mtime 3: beyond tolerance). -/
def stC3 : StatMap :=
  fun p =>
    if p = "a" then some ⟨5, 0⟩
    else if p = "b" then some ⟨5, 1⟩
    else if p = "c" then some ⟨6, 0⟩
    else if p = "e" then some ⟨5, 3⟩
    else none

/-- A bare world (no directories, nothing readable-relevant). -/
def wBare : World := ⟨fun _ => false, fun _ => [], fun _ => true, fun _ => false⟩


/-- Whether reading `win_longpath(src_file)` succeeds: the per-file success
predicate of both `zf.write` (zip mode) and `shutil.copy2` (mirror mode,
when the stat of the source is not changed by the run). -/
def srcOkP (lp : String → String) (w : World) (stat0 : StatMap)
    (pr : String × String) : Bool :=
  file_op_ok w stat0 (lp pr.1)

/-- The zip error line for a `(src, arcname)` pair. -/
def zipErrLineOf (pa : String × String) : String :=
  "[ERROR] ZIP " ++ pa.1 ++ " -> " ++ pa.2 ++ ": " ++ oserror_text

/-- The zip log line for a `(src, arcname)` pair. -/
def zipOkLineOf (pa : String × String) : String :=
  "ZIP: " ++ pa.1 ++ " -> " ++ pa.2

/-- The mirror COPY line for a `(src, dest)` pair. -/
def mirrorCopyLineOf (sd : String × String) : String :=
  "COPY: " ++ sd.1 ++ " -> " ++ sd.2

/-- The mirror error line for a `(src, dest)` pair. -/
def mirrorErrLineOf (sd : String × String) : String :=
  "[ERROR] " ++ sd.1 ++ " -> " ++ sd.2 ++ ": " ++ oserror_text

/-- The `(src, arcname)` pairs of the files whose archive write succeeds. -/
def zipSuccessPlan (lp : String → String) (w : World) (stat0 : StatMap)
    (roots : List String) : List (String × String) :=
  (roots.map fun root =>
    ((iter_files_under w root).filter (srcOkP lp w stat0)).map
      fun pr => (pr.1, arcnameOf (tagged_base_of root) pr.2)).flatten

/-- The `(src, arcname)` pairs of the files whose archive write fails. -/
def zipFailPlan (lp : String → String) (w : World) (stat0 : StatMap)
    (roots : List String) : List (String × String) :=
  (roots.map fun root =>
    ((iter_files_under w root).filter (fun pr => !srcOkP lp w stat0 pr)).map
      fun pr => (pr.1, arcnameOf (tagged_base_of root) pr.2)).flatten

/-- The `backup_log.txt` member lines of a completed archive run. -/
def zipLogLinesPlan (lp : String → String) (w : World) (stat0 : StatMap)
    (roots : List String) : List String :=
  (roots.map fun root =>
    (iter_files_under w root).map fun pr =>
      if srcOkP lp w stat0 pr then zipOkLine (tagged_base_of root) pr
      else zipErrLine (tagged_base_of root) pr).flatten

/-- A `(src, dest)` pair for which the incremental check will skip: the
destination exists and the change detector reports it unchanged. -/
def skipReady (w : World) (st : StatMap) (sd : String × String) : Prop :=
  pathExists w st sd.2 = true ∧ is_unchanged w st sd.1 sd.2 = true

/-- The warning events for missing sources, in order. -/
def warnEvents (w : World) (bw : BackupWorker) : List Event :=
  (missingSources w bw).map fun m =>
    .log ("[WARN] Source not found or unset (skipping): " ++ m)

/-! ## Theorems -/

theorem is_unchanged_default_tol (w : World) (st : StatMap) (src dst : String) :
    is_unchanged w st src dst = is_unchanged w st src dst 1 := rfl

/-- C3 helper: the characterisation of `is_unchanged`. -/
theorem is_unchanged_eq_true_iff (w : World) (st : StatMap) (src dst : String)
    (tol : ℚ) (s d : Stat) (hs : st src = some s) (hd : st dst = some d) :
    (is_unchanged w st src dst tol = true ↔
      s.st_size = d.st_size ∧ |s.st_mtime - d.st_mtime| ≤ tol) := by
  have hex : pathExists w st dst = true := by simp [pathExists, hd]
  by_cases hsz : s.st_size = d.st_size
  · simp [is_unchanged, hex, hs, hd, hsz]
  · simp [is_unchanged, hex, hs, hd, hsz]

/-- C3: `is_unchanged(source, destination, tolerance)` returns true iff the
destination path exists, the sizes are exactly equal, and the absolute mtime
difference is at most the tolerance (boundary included); the tolerance
defaults to 1; a missing destination gives false. -/
theorem C3_change_detector_exact (w : World) (st : StatMap) (src dst : String)
    (tol : ℚ) :
    (is_unchanged w st src dst = is_unchanged w st src dst 1) ∧
    (pathExists w st dst = false → is_unchanged w st src dst tol = false) ∧
    (∀ s d : Stat, st src = some s → st dst = some d →
      (is_unchanged w st src dst tol = true ↔
        s.st_size = d.st_size ∧ |s.st_mtime - d.st_mtime| ≤ tol)) :=
  ⟨rfl, fun h => by simp [is_unchanged, h],
   fun s d hs hd => is_unchanged_eq_true_iff w st src dst tol s d hs hd⟩

/-- C3 witness: boundary mtime difference gives true; missing destination,
a 1-byte size difference, and an over-tolerance mtime difference give false. -/
theorem C3_change_detector_exact_witness :
    is_unchanged wBare stC3 "a" "b" 1 = true ∧
    is_unchanged wBare stC3 "a" "miss" 1 = false ∧
    is_unchanged wBare stC3 "a" "c" 1 = false ∧
    is_unchanged wBare stC3 "a" "e" 1 = false :=
  ⟨((C3_change_detector_exact wBare stC3 "a" "b" 1).2.2 ⟨5, 0⟩ ⟨5, 1⟩ rfl rfl).mpr
      ⟨rfl, by norm_num⟩,
   (C3_change_detector_exact wBare stC3 "a" "miss" 1).2.1 rfl,
   by rfl,
   by
     have h := (C3_change_detector_exact wBare stC3 "a" "e" 1).2.2 ⟨5, 0⟩ ⟨5, 3⟩ rfl rfl
     rw [Bool.eq_false_iff]
     intro hh
     have := (h.mp hh).2
     norm_num at this⟩

/-- C4: if the stat of either the source or the destination fails, the
`except` clause makes `is_unchanged` return false; the embedding is a total
function, so no input makes it raise. -/
theorem C4_stat_failure_gives_false (w : World) (st : StatMap)
    (src dst : String) (tol : ℚ) (h : st src = none ∨ st dst = none) :
    is_unchanged w st src dst tol = false := by
  unfold is_unchanged
  rcases h with h | h
  · cases hd : st dst <;> simp [h, hd]
  · simp [h, pathExists]

/-- C4 witness: a source that fails to stat yields false against an existing
destination, and so does a destination that fails to stat. -/
theorem C4_stat_failure_gives_false_witness :
    is_unchanged wBare stC3 "nope" "b" 1 = false ∧
    is_unchanged wBare stC3 "a" "nope" 1 = false :=
  ⟨C4_stat_failure_gives_false wBare stC3 "nope" "b" 1 (Or.inl rfl),
   C4_stat_failure_gives_false wBare stC3 "a" "nope" 1 (Or.inr rfl)⟩

/-- C5: the constructor forces `incremental := False` whenever `zip_mode`
is true, and keeps the given flag whenever `zip_mode` is false. -/
theorem C5_zip_mode_forces_non_incremental (sources : List String)
    (dest_root : String) (incremental : Bool) :
    (BackupWorker.init sources dest_root true incremental).incremental = false ∧
    (BackupWorker.init sources dest_root false incremental).incremental
      = incremental :=
  ⟨rfl, rfl⟩

theorem entryFor_skip (pr : String × String) : entryFor pr.1 (mirrorSkipLine pr) :=
  Or.inl ⟨"", by simp [mirrorSkipLine]⟩

theorem entryFor_copy (db : String) (pr : String × String) :
    entryFor pr.1 (mirrorCopyLine db pr) :=
  Or.inr (Or.inl ⟨" -> " ++ joinPath db pr.2, by
    simp [mirrorCopyLine, String.append_assoc]⟩)

theorem entryFor_err (db : String) (pr : String × String) :
    entryFor pr.1 (mirrorErrLine db pr) :=
  Or.inr (Or.inr ⟨" -> " ++ joinPath db pr.2 ++ ": " ++ oserror_text, by
    simp [mirrorErrLine, String.append_assoc]⟩)

/-- Structural effect of one mirror per-file iteration: it appends exactly
one log line concerning the processed file, advances `done` by one, appends
only log/progress events, and only ever extends errors and copies. -/
theorem mirrorFile_generic (lp : String → String) (w : World) (inc : Bool)
    (db : String) (total : Nat) (st : MSt) (pr : String × String) :
    ∃ (sm : StatMap) (l : String) (er : List String)
      (cp : List (String × String)) (E : List Event),
      mirrorFile lp w inc db total st pr =
        { stat := sm, lines := st.lines ++ [l], errors := st.errors ++ er,
          done := st.done + 1, events := st.events ++ E,
          copied := st.copied ++ cp } ∧
      entryFor pr.1 l ∧ (∀ e ∈ E, evOK total e) := by
  simp only [mirrorFile]
  split
  · -- SKIP branch
    split
    · refine ⟨st.stat, mirrorSkipLine pr, [], [],
        [.progress (st.done + 1) (max total 1)], ?_, entryFor_skip pr, ?_⟩
      · simp
      · rintro e he
        simp at he
        subst he
        exact Or.inr ⟨st.done + 1, rfl⟩
    · refine ⟨st.stat, mirrorSkipLine pr, [], [], [], ?_, entryFor_skip pr, ?_⟩
      · simp
      · simp
  · -- copy / error branch
    rcases hm : copy2 w st.stat (lp pr.1) (lp (joinPath db pr.2)) with _ | m
    · -- copy2 raised
      simp only [hm]
      split
      · refine ⟨st.stat, mirrorErrLine db pr, [mirrorErrLine db pr], [],
          [.log (mirrorErrLine db pr), .progress (st.done + 1) (max total 1)],
          ?_, entryFor_err db pr, ?_⟩
        · simp
        · rintro e he
          simp at he
          rcases he with he | he <;> subst he
          · exact Or.inl ⟨_, rfl⟩
          · exact Or.inr ⟨st.done + 1, rfl⟩
      · refine ⟨st.stat, mirrorErrLine db pr, [mirrorErrLine db pr], [],
          [.log (mirrorErrLine db pr)], ?_, entryFor_err db pr, ?_⟩
        · simp
        · rintro e he
          simp at he
          subst he
          exact Or.inl ⟨_, rfl⟩
    · -- copy2 succeeded
      simp only [hm]
      split
      · refine ⟨m, mirrorCopyLine db pr, [], [(pr.1, joinPath db pr.2)],
          [.progress (st.done + 1) (max total 1)], ?_, entryFor_copy db pr, ?_⟩
        · simp
        · rintro e he
          simp at he
          subst he
          exact Or.inr ⟨st.done + 1, rfl⟩
      · refine ⟨m, mirrorCopyLine db pr, [], [(pr.1, joinPath db pr.2)], [],
          ?_, entryFor_copy db pr, ?_⟩
        · simp
        · simp

theorem stopRead_none (i : Nat) : stopRead none i = false := rfl

/-- With no cancellation, the mirror per-file loop over `files` terminates
uninterrupted, appends one `entryFor` line per file, advances `done` by the
number of files, and emits only log/progress events. -/
theorem mirrorFiles_none_spec (lp : String → String) (w : World) (inc : Bool)
    (db : String) (total : Nat) (files : List (String × String)) :
    ∀ st : MSt,
      ∃ (sm : StatMap) (Ls er : List String) (cp : List (String × String))
        (E : List Event),
        mirrorFiles lp w inc db none total files st =
          ({ stat := sm, lines := st.lines ++ Ls, errors := st.errors ++ er,
             done := st.done + files.length, events := st.events ++ E,
             copied := st.copied ++ cp }, false) ∧
        List.Forall₂ (fun pr l => entryFor pr.1 l) files Ls ∧
        (∀ e ∈ E, evOK total e) := by
  induction files with
  | nil =>
    intro st
    exact ⟨st.stat, [], [], [], [], by simp [mirrorFiles], List.Forall₂.nil, by simp⟩
  | cons pr rest ih =>
    intro st
    obtain ⟨sm1, l, er1, cp1, E1, heq1, hl, hE1⟩ :=
      mirrorFile_generic lp w inc db total st pr
    obtain ⟨sm, Ls, er, cp, E, heq, hF, hE⟩ :=
      ih (mirrorFile lp w inc db total st pr)
    rw [heq1] at heq
    refine ⟨sm, l :: Ls, er1 ++ er, cp1 ++ cp, E1 ++ E, ?_, .cons hl hF, ?_⟩
    · rw [mirrorFiles, stopRead_none]
      simp only [Bool.false_eq_true, if_false]
      rw [heq1, heq]
      simp only [Prod.mk.injEq, MSt.mk.injEq, and_true, true_and,
        List.append_assoc, List.singleton_append, List.length_cons]
      omega
    · intro e he
      rcases List.mem_append.mp he with h | h
      · exact hE1 e h
      · exact hE e h


/-- Exact effect of one zip per-file iteration. -/
theorem zipFile_generic (lp : String → String) (w : World) (stat0 : StatMap)
    (tb : String) (total : Nat) (z : ZSt) (pr : String × String) :
    ∃ E : List Event,
      zipFile lp w stat0 tb total z pr =
        { entries := z.entries ++
            (if srcOkP lp w stat0 pr then [(lp pr.1, arcnameOf tb pr.2)] else []),
          log_lines := z.log_lines ++
            [if srcOkP lp w stat0 pr then zipOkLine tb pr else zipErrLine tb pr],
          errors := z.errors ++
            (if srcOkP lp w stat0 pr then [] else [zipErrLine tb pr]),
          count := z.count + 1,
          events := z.events ++ E } ∧
      (∀ e ∈ E, evOK total e) := by
  by_cases hok : srcOkP lp w stat0 pr = true
  · by_cases hpc : progressCond total (z.count + 1) = true
    · refine ⟨[.progress (z.count + 1) (max total 1)], ?_, ?_⟩
      · simp only [zipFile, srcOkP] at hok ⊢
        simp [hok, hpc]
      · rintro e he
        simp at he
        subst he
        exact Or.inr ⟨z.count + 1, rfl⟩
    · refine ⟨[], ?_, by simp⟩
      simp only [zipFile, srcOkP] at hok ⊢
      simp [hok, hpc]
  · rw [Bool.not_eq_true] at hok
    by_cases hpc : progressCond total (z.count + 1) = true
    · refine ⟨[.log (zipErrLine tb pr), .progress (z.count + 1) (max total 1)],
        ?_, ?_⟩
      · simp only [zipFile, srcOkP] at hok ⊢
        simp [hok, hpc]
      · rintro e he
        simp at he
        rcases he with he | he <;> subst he
        · exact Or.inl ⟨_, rfl⟩
        · exact Or.inr ⟨z.count + 1, rfl⟩
    · refine ⟨[.log (zipErrLine tb pr)], ?_, ?_⟩
      · simp only [zipFile, srcOkP] at hok ⊢
        simp [hok, hpc]
      · rintro e he
        simp at he
        subst he
        exact Or.inl ⟨_, rfl⟩

/-- With no cancellation, the zip per-file loop over `files` terminates
uninterrupted with exactly the successful writes as entries, one log line
per file, the failed writes as errors, `count` advanced by the number of
files, and only log/progress events emitted. -/
theorem zipFiles_none_spec (lp : String → String) (w : World) (stat0 : StatMap)
    (tb : String) (total : Nat) (files : List (String × String)) :
    ∀ z : ZSt,
      ∃ E : List Event,
        zipFiles lp w stat0 tb none total files z =
          ({ entries := z.entries ++ (files.filter (srcOkP lp w stat0)).map
               (fun pr => (lp pr.1, arcnameOf tb pr.2)),
             log_lines := z.log_lines ++ files.map
               (fun pr => if srcOkP lp w stat0 pr then zipOkLine tb pr
                          else zipErrLine tb pr),
             errors := z.errors ++
               (files.filter (fun pr => !srcOkP lp w stat0 pr)).map (zipErrLine tb),
             count := z.count + files.length,
             events := z.events ++ E }, false) ∧
        (∀ e ∈ E, evOK total e) := by
  induction files with
  | nil =>
    intro z
    exact ⟨[], by simp [zipFiles], by simp⟩
  | cons pr rest ih =>
    intro z
    obtain ⟨E1, heq1, hE1⟩ := zipFile_generic lp w stat0 tb total z pr
    obtain ⟨E, heq, hE⟩ := ih (zipFile lp w stat0 tb total z pr)
    rw [heq1] at heq
    refine ⟨E1 ++ E, ?_, ?_⟩
    · rw [zipFiles, stopRead_none]
      simp only [Bool.false_eq_true, if_false]
      rw [heq1, heq]
      by_cases hok : srcOkP lp w stat0 pr = true
      · simp only [Prod.mk.injEq, ZSt.mk.injEq, List.filter_cons, hok,
          if_true, List.map_cons, List.length_cons, Bool.not_true,
          Bool.false_eq_true, if_false, List.append_assoc,
          List.singleton_append, List.nil_append, and_true, true_and]
        omega
      · rw [Bool.not_eq_true] at hok
        simp only [Prod.mk.injEq, ZSt.mk.injEq, List.filter_cons, hok,
          Bool.false_eq_true, if_false, List.map_cons, List.length_cons,
          Bool.not_false, if_true, List.append_assoc, List.singleton_append,
          List.nil_append, and_true, true_and]
        omega
    · intro e he
      rcases List.mem_append.mp he with h | h
      · exact hE1 e h
      · exact hE e h

/-- With no cancellation, the mirror per-root loop terminates uninterrupted,
appends one `entryFor` line per enumerated file (in enumeration order),
advances `done` by the total file count, and emits only log/progress
events. -/
theorem mirrorRoots_none_spec (lp : String → String) (w : World) (inc : Bool)
    (total : Nat) (bd : String) (roots : List String) :
    ∀ st : MSt,
      ∃ (sm : StatMap) (Ls er : List String) (cp : List (String × String))
        (E : List Event),
        mirrorRoots lp w inc none total bd roots st =
          ({ stat := sm, lines := st.lines ++ Ls, errors := st.errors ++ er,
             done := st.done + count_total_files w roots,
             events := st.events ++ E, copied := st.copied ++ cp }, false) ∧
        List.Forall₂ (fun pr l => entryFor pr.1 l) (enumerated w roots) Ls ∧
        (∀ e ∈ E, evOK total e) := by
  induction roots with
  | nil =>
    intro st
    refine ⟨st.stat, [], [], [], [], ?_, ?_, by simp⟩
    · simp [mirrorRoots, count_total_files, enumerated]
    · simp [enumerated]
  | cons root rest ih =>
    intro st
    obtain ⟨sm1, Ls1, er1, cp1, E1, heq1, hF1, hE1⟩ :=
      mirrorFiles_none_spec lp w inc (joinPath bd (tagged_base_of root)) total
        (iter_files_under w root)
        { st with events := st.events ++
            [.log ("Copying: " ++ root ++ " -> " ++ joinPath bd (tagged_base_of root))] }
    obtain ⟨sm, Ls, er, cp, E, heq, hF, hE⟩ :=
      ih { stat := sm1, lines := st.lines ++ Ls1, errors := st.errors ++ er1,
           done := st.done + (iter_files_under w root).length,
           events := (st.events ++
             [.log ("Copying: " ++ root ++ " -> " ++ joinPath bd (tagged_base_of root))]) ++ E1,
           copied := st.copied ++ cp1 }
    refine ⟨sm, Ls1 ++ Ls, er1 ++ er, cp1 ++ cp,
      .log ("Copying: " ++ root ++ " -> " ++ joinPath bd (tagged_base_of root))
        :: (E1 ++ E), ?_, ?_, ?_⟩
    · simp only [mirrorRoots]
      split
      · rename_i st2 h
        rw [heq1] at h
        simp at h
      · rename_i st2 h
        rw [heq1] at h
        injection h with h1 _
        subst h1
        dsimp only
        rw [heq]
        simp only [Prod.mk.injEq, MSt.mk.injEq, and_true, true_and,
          List.append_assoc, List.cons_append, List.singleton_append,
          count_total_files, List.map_cons, List.sum_cons, iter_files_under,
          List.nil_append]
        omega
    · simp only [enumerated, List.map_cons, List.flatten_cons]
      exact List.rel_append hF1 hF
    · intro e he
      rcases List.mem_cons.mp he with rfl | he2
      · exact Or.inl ⟨_, rfl⟩
      · rcases List.mem_append.mp he2 with h2 | h2
        · exact hE1 e h2
        · exact hE e h2

/-- With no cancellation, the zip per-root loop terminates uninterrupted with
exactly the successful writes as entries, the per-file log lines of
`backup_log.txt` in order, the failed writes as errors, `count` advanced by
the total file count, and only log/progress events emitted. -/
theorem zipRoots_none_spec (lp : String → String) (w : World) (stat0 : StatMap)
    (total : Nat) (roots : List String) :
    ∀ z : ZSt,
      ∃ E : List Event,
        zipRoots lp w stat0 none total roots z =
          ({ entries := z.entries ++
               (zipSuccessPlan lp w stat0 roots).map (fun pa => (lp pa.1, pa.2)),
             log_lines := z.log_lines ++ zipLogLinesPlan lp w stat0 roots,
             errors := z.errors ++ (zipFailPlan lp w stat0 roots).map zipErrLineOf,
             count := z.count + count_total_files w roots,
             events := z.events ++ E }, false) ∧
        (∀ e ∈ E, evOK total e) := by
  induction roots with
  | nil =>
    intro z
    refine ⟨[], ?_, by simp⟩
    simp [zipRoots, count_total_files, zipSuccessPlan, zipFailPlan,
      zipLogLinesPlan]
  | cons root rest ih =>
    intro z
    obtain ⟨E1, heq1, hE1⟩ :=
      zipFiles_none_spec lp w stat0 (tagged_base_of root) total
        (iter_files_under w root)
        { z with events := z.events ++
            [.log ("Zipping: " ++ root ++ " -> /" ++ tagged_base_of root ++ "/")] }
    obtain ⟨E, heq, hE⟩ :=
      ih { entries := z.entries ++
             ((iter_files_under w root).filter (srcOkP lp w stat0)).map
               (fun pr => (lp pr.1, arcnameOf (tagged_base_of root) pr.2)),
           log_lines := z.log_lines ++ (iter_files_under w root).map
             (fun pr => if srcOkP lp w stat0 pr then zipOkLine (tagged_base_of root) pr
                        else zipErrLine (tagged_base_of root) pr),
           errors := z.errors ++
             ((iter_files_under w root).filter
               (fun pr => !srcOkP lp w stat0 pr)).map (zipErrLine (tagged_base_of root)),
           count := z.count + (iter_files_under w root).length,
           events := (z.events ++
             [.log ("Zipping: " ++ root ++ " -> /" ++ tagged_base_of root ++ "/")]) ++ E1 }
    refine ⟨.log ("Zipping: " ++ root ++ " -> /" ++ tagged_base_of root ++ "/")
        :: (E1 ++ E), ?_, ?_⟩
    · simp only [zipRoots]
      split
      · rename_i z2 h
        rw [heq1] at h
        simp at h
      · rename_i z2 h
        rw [heq1] at h
        injection h with h1 _
        subst h1
        dsimp only
        rw [heq]
        simp only [Prod.mk.injEq, ZSt.mk.injEq, and_true, true_and,
          List.append_assoc, List.cons_append, List.singleton_append,
          List.nil_append, count_total_files, List.map_cons, List.sum_cons,
          iter_files_under, zipSuccessPlan, zipFailPlan, zipLogLinesPlan,
          List.flatten_cons, List.map_append, List.map_map]
        simp [Function.comp, zipErrLine, zipErrLineOf, Nat.add_assoc]
    · intro e he
      rcases List.mem_cons.mp he with rfl | he2
      · exact Or.inl ⟨_, rfl⟩
      · rcases List.mem_append.mp he2 with h2 | h2
        · exact hE1 e h2
        · exact hE e h2

theorem stopRead_some (k i : Nat) : stopRead (some k) i = decide (k ≤ i) := rfl

theorem mirrorFile_done (lp : String → String) (w : World) (inc : Bool)
    (db : String) (total : Nat) (st : MSt) (pr : String × String) :
    (mirrorFile lp w inc db total st pr).done = st.done + 1 := by
  obtain ⟨sm, l, er, cp, E, heq, -, -⟩ := mirrorFile_generic lp w inc db total st pr
  rw [heq]

theorem zipFile_count (lp : String → String) (w : World) (stat0 : StatMap)
    (tb : String) (total : Nat) (z : ZSt) (pr : String × String) :
    (zipFile lp w stat0 tb total z pr).count = z.count + 1 := by
  obtain ⟨E, heq, -⟩ := zipFile_generic lp w stat0 tb total z pr
  rw [heq]

/-- If the flag is set only after all of `files` have been processed, the
polls never observe it and the loop behaves as with no cancellation. -/
theorem mirrorFiles_no_interrupt (lp : String → String) (w : World) (inc : Bool)
    (db : String) (total K : Nat) (files : List (String × String)) :
    ∀ st : MSt, st.done + files.length ≤ K →
      mirrorFiles lp w inc db (some K) total files st =
        mirrorFiles lp w inc db none total files st := by
  induction files with
  | nil => intro st _; rfl
  | cons pr rest ih =>
    intro st h
    have hnot : stopRead (some K) st.done = false := by
      rw [stopRead_some]
      simp at h ⊢
      omega
    rw [mirrorFiles, mirrorFiles, stopRead_none, hnot]
    exact ih (mirrorFile lp w inc db total st pr)
      (by rw [mirrorFile_done]; simp at h ⊢; omega)

/-- If the flag is set after `K` files with `K` before the end of `files`,
the loop processes exactly the first `K - st.done` files and is then
interrupted. -/
theorem mirrorFiles_cancel (lp : String → String) (w : World) (inc : Bool)
    (db : String) (total K : Nat) (files : List (String × String)) :
    ∀ st : MSt, st.done ≤ K → K < st.done + files.length →
      mirrorFiles lp w inc db (some K) total files st =
        ((mirrorFiles lp w inc db none total (files.take (K - st.done)) st).1,
          true) := by
  induction files with
  | nil =>
    intro st h1 h2
    simp at h2
    omega
  | cons pr rest ih =>
    intro st h1 h2
    rcases Nat.eq_or_lt_of_le h1 with heq | hlt
    · subst heq
      have hyes : stopRead (some st.done) st.done = true := by
        rw [stopRead_some]
        simp
      rw [mirrorFiles, hyes]
      simp [mirrorFiles]
    · have hnot : stopRead (some K) st.done = false := by
        rw [stopRead_some]
        simp
        omega
      rw [mirrorFiles, hnot]
      simp only [Bool.false_eq_true, if_false]
      have hd : (mirrorFile lp w inc db total st pr).done = st.done + 1 :=
        mirrorFile_done lp w inc db total st pr
      have h2' : K < (mirrorFile lp w inc db total st pr).done + rest.length := by
        rw [hd]; simp at h2; omega
      rw [ih (mirrorFile lp w inc db total st pr) (by omega) h2']
      have htake : (pr :: rest).take (K - st.done)
          = pr :: rest.take (K - (st.done + 1)) := by
        have : K - st.done = (K - (st.done + 1)) + 1 := by omega
        rw [this, List.take_succ_cons]
      rw [htake, mirrorFiles, stopRead_none]
      simp only [Bool.false_eq_true, if_false, hd]

/-- Zip analogue of `mirrorFiles_no_interrupt`. -/
theorem zipFiles_no_interrupt (lp : String → String) (w : World)
    (stat0 : StatMap) (tb : String) (total K : Nat)
    (files : List (String × String)) :
    ∀ z : ZSt, z.count + files.length ≤ K →
      zipFiles lp w stat0 tb (some K) total files z =
        zipFiles lp w stat0 tb none total files z := by
  induction files with
  | nil => intro z _; rfl
  | cons pr rest ih =>
    intro z h
    have hnot : stopRead (some K) z.count = false := by
      rw [stopRead_some]
      simp at h ⊢
      omega
    rw [zipFiles, zipFiles, stopRead_none, hnot]
    exact ih (zipFile lp w stat0 tb total z pr)
      (by rw [zipFile_count]; simp at h ⊢; omega)

/-- Zip analogue of `mirrorFiles_cancel`. -/
theorem zipFiles_cancel (lp : String → String) (w : World) (stat0 : StatMap)
    (tb : String) (total K : Nat) (files : List (String × String)) :
    ∀ z : ZSt, z.count ≤ K → K < z.count + files.length →
      zipFiles lp w stat0 tb (some K) total files z =
        ((zipFiles lp w stat0 tb none total (files.take (K - z.count)) z).1,
          true) := by
  induction files with
  | nil =>
    intro z h1 h2
    simp at h2
    omega
  | cons pr rest ih =>
    intro z h1 h2
    rcases Nat.eq_or_lt_of_le h1 with heq | hlt
    · subst heq
      have hyes : stopRead (some z.count) z.count = true := by
        rw [stopRead_some]
        simp
      rw [zipFiles, hyes]
      simp [zipFiles]
    · have hnot : stopRead (some K) z.count = false := by
        rw [stopRead_some]
        simp
        omega
      rw [zipFiles, hnot]
      simp only [Bool.false_eq_true, if_false]
      have hd : (zipFile lp w stat0 tb total z pr).count = z.count + 1 :=
        zipFile_count lp w stat0 tb total z pr
      have h2' : K < (zipFile lp w stat0 tb total z pr).count + rest.length := by
        rw [hd]; simp at h2; omega
      rw [ih (zipFile lp w stat0 tb total z pr) (by omega) h2']
      have htake : (pr :: rest).take (K - z.count)
          = pr :: rest.take (K - (z.count + 1)) := by
        have : K - z.count = (K - (z.count + 1)) + 1 := by omega
        rw [this, List.take_succ_cons]
      rw [htake, zipFiles, stopRead_none]
      simp only [Bool.false_eq_true, if_false, hd]

/-- If the flag is set only after all enumerated files, the mirror root loop
behaves as with no cancellation. -/
theorem mirrorRoots_no_interrupt (lp : String → String) (w : World)
    (inc : Bool) (total K : Nat) (bd : String) (roots : List String) :
    ∀ st : MSt, st.done + count_total_files w roots ≤ K →
      mirrorRoots lp w inc (some K) total bd roots st =
        mirrorRoots lp w inc none total bd roots st := by
  induction roots with
  | nil => intro st _; rfl
  | cons root rest ih =>
    intro st h
    simp only [count_total_files, List.map_cons, List.sum_cons,
      iter_files_under] at h
    obtain ⟨sm1, Ls1, er1, cp1, E1, heq1, -, -⟩ :=
      mirrorFiles_none_spec lp w inc (joinPath bd (tagged_base_of root)) total
        (iter_files_under w root)
        { st with events := st.events ++
            [.log ("Copying: " ++ root ++ " -> " ++ joinPath bd (tagged_base_of root))] }
    simp only [mirrorRoots]
    rw [mirrorFiles_no_interrupt lp w inc (joinPath bd (tagged_base_of root))
      total K (iter_files_under w root) _ (by simp [iter_files_under]; omega)]
    rw [heq1]
    exact ih _ (by simp [count_total_files, iter_files_under]; omega)

/-- If the flag is set after `K` files with `K` strictly before the end of
the enumeration, the mirror root loop processes exactly the first
`K - st.done` files, appending one `entryFor` line for each, and is
interrupted with `done = K`. -/
theorem mirrorRoots_cancel_spec (lp : String → String) (w : World) (inc : Bool)
    (total K : Nat) (bd : String) (roots : List String) :
    ∀ st : MSt, st.done ≤ K → K < st.done + count_total_files w roots →
      ∃ (sm : StatMap) (Ls er : List String) (cp : List (String × String))
        (E : List Event),
        mirrorRoots lp w inc (some K) total bd roots st =
          ({ stat := sm, lines := st.lines ++ Ls, errors := st.errors ++ er,
             done := K, events := st.events ++ E, copied := st.copied ++ cp },
            true) ∧
        List.Forall₂ (fun pr l => entryFor pr.1 l)
          ((enumerated w roots).take (K - st.done)) Ls ∧
        (∀ e ∈ E, evOK total e) := by
  induction roots with
  | nil =>
    intro st h1 h2
    simp [count_total_files] at h2
    omega
  | cons root rest ih =>
    intro st h1 h2
    simp only [count_total_files, List.map_cons, List.sum_cons,
      iter_files_under] at h2
    by_cases hin : K < st.done + (w.walk root).length
    · -- interrupted inside this root
      obtain ⟨sm1, Ls1, er1, cp1, E1, heq1, hF1, hE1⟩ :=
        mirrorFiles_none_spec lp w inc (joinPath bd (tagged_base_of root)) total
          ((iter_files_under w root).take (K - st.done))
          { st with events := st.events ++
              [.log ("Copying: " ++ root ++ " -> " ++ joinPath bd (tagged_base_of root))] }
      refine ⟨sm1, Ls1, er1, cp1,
        .log ("Copying: " ++ root ++ " -> " ++ joinPath bd (tagged_base_of root))
          :: E1, ?_, ?_, ?_⟩
      · simp only [mirrorRoots]
        rw [mirrorFiles_cancel lp w inc (joinPath bd (tagged_base_of root))
          total K (iter_files_under w root)
          { st with events := st.events ++
              [.log ("Copying: " ++ root ++ " -> " ++ joinPath bd (tagged_base_of root))] }
          h1 (by simp [iter_files_under]; omega)]
        dsimp only
        rw [heq1]
        simp only [Prod.mk.injEq, MSt.mk.injEq, and_true, true_and,
          List.append_assoc, List.cons_append, List.singleton_append,
          List.nil_append, List.length_take, iter_files_under]
        omega
      · rw [enumerated, List.map_cons, List.flatten_cons,
          List.take_append_of_le_length (by simp [iter_files_under]; omega)]
        exact hF1
      · intro e he
        rcases List.mem_cons.mp he with rfl | he2
        · exact Or.inl ⟨_, rfl⟩
        · exact hE1 e he2
    · -- this root completes; interrupted later
      obtain ⟨sm1, Ls1, er1, cp1, E1, heq1, hF1, hE1⟩ :=
        mirrorFiles_none_spec lp w inc (joinPath bd (tagged_base_of root)) total
          (iter_files_under w root)
          { st with events := st.events ++
              [.log ("Copying: " ++ root ++ " -> " ++ joinPath bd (tagged_base_of root))] }
      obtain ⟨sm, Ls, er, cp, E, heq, hF, hE⟩ :=
        ih { stat := sm1, lines := st.lines ++ Ls1, errors := st.errors ++ er1,
             done := st.done + (iter_files_under w root).length,
             events := (st.events ++
               [.log ("Copying: " ++ root ++ " -> " ++ joinPath bd (tagged_base_of root))]) ++ E1,
             copied := st.copied ++ cp1 }
          (by simp [iter_files_under]; omega)
          (by simp [count_total_files, iter_files_under]; omega)
      refine ⟨sm, Ls1 ++ Ls, er1 ++ er, cp1 ++ cp,
        .log ("Copying: " ++ root ++ " -> " ++ joinPath bd (tagged_base_of root))
          :: (E1 ++ E), ?_, ?_, ?_⟩
      · simp only [mirrorRoots]
        rw [mirrorFiles_no_interrupt lp w inc (joinPath bd (tagged_base_of root))
          total K (iter_files_under w root) _ (by simp [iter_files_under]; omega)]
        rw [heq1]
        dsimp only
        rw [heq]
        simp only [Prod.mk.injEq, MSt.mk.injEq, and_true, true_and,
          List.append_assoc, List.cons_append, List.singleton_append,
          List.nil_append]
      · rw [enumerated, List.map_cons, List.flatten_cons,
          List.take_append_eq_append_take,
          List.take_of_length_le (by simp [iter_files_under]; omega)]
        simp only [iter_files_under] at hF ⊢
        have : (w.walk root).length ≤ K - st.done := by omega
        have harith : K - st.done - (w.walk root).length
            = K - (st.done + (w.walk root).length) := by omega
        rw [harith]
        exact List.rel_append hF1 (by rw [enumerated] at hF; exact hF)
      · intro e he
        rcases List.mem_cons.mp he with rfl | he2
        · exact Or.inl ⟨_, rfl⟩
        · rcases List.mem_append.mp he2 with h3 | h3
          · exact hE1 e h3
          · exact hE e h3

/-- Zip analogue of `mirrorRoots_no_interrupt`. -/
theorem zipRoots_no_interrupt (lp : String → String) (w : World)
    (stat0 : StatMap) (total K : Nat) (roots : List String) :
    ∀ z : ZSt, z.count + count_total_files w roots ≤ K →
      zipRoots lp w stat0 (some K) total roots z =
        zipRoots lp w stat0 none total roots z := by
  induction roots with
  | nil => intro z _; rfl
  | cons root rest ih =>
    intro z h
    simp only [count_total_files, List.map_cons, List.sum_cons,
      iter_files_under] at h
    obtain ⟨E1, heq1, -⟩ :=
      zipFiles_none_spec lp w stat0 (tagged_base_of root) total
        (iter_files_under w root)
        { z with events := z.events ++
            [.log ("Zipping: " ++ root ++ " -> /" ++ tagged_base_of root ++ "/")] }
    simp only [zipRoots]
    rw [zipFiles_no_interrupt lp w stat0 (tagged_base_of root)
      total K (iter_files_under w root) _ (by simp [iter_files_under]; omega)]
    rw [heq1]
    exact ih _ (by simp [count_total_files, iter_files_under]; omega)

/-- Zip analogue of `mirrorRoots_cancel_spec`: interrupted with `count = K`,
having written at most `K - z.count` entries and no log member yet. -/
theorem zipRoots_cancel_spec (lp : String → String) (w : World)
    (stat0 : StatMap) (total K : Nat) (roots : List String) :
    ∀ z : ZSt, z.count ≤ K → K < z.count + count_total_files w roots →
      ∃ (En : List (String × String)) (Ll Er : List String) (E : List Event),
        zipRoots lp w stat0 (some K) total roots z =
          ({ entries := z.entries ++ En, log_lines := z.log_lines ++ Ll,
             errors := z.errors ++ Er, count := K, events := z.events ++ E },
            true) ∧
        En.length ≤ K - z.count ∧
        (∀ e ∈ E, evOK total e) := by
  induction roots with
  | nil =>
    intro z h1 h2
    simp [count_total_files] at h2
    omega
  | cons root rest ih =>
    intro z h1 h2
    simp only [count_total_files, List.map_cons, List.sum_cons,
      iter_files_under] at h2
    by_cases hin : K < z.count + (w.walk root).length
    · -- interrupted inside this root
      obtain ⟨E1, heq1, hE1⟩ :=
        zipFiles_none_spec lp w stat0 (tagged_base_of root) total
          ((iter_files_under w root).take (K - z.count))
          { z with events := z.events ++
              [.log ("Zipping: " ++ root ++ " -> /" ++ tagged_base_of root ++ "/")] }
      refine ⟨(((iter_files_under w root).take (K - z.count)).filter
          (srcOkP lp w stat0)).map
          (fun pr => (lp pr.1, arcnameOf (tagged_base_of root) pr.2)),
        ((iter_files_under w root).take (K - z.count)).map
          (fun pr => if srcOkP lp w stat0 pr then zipOkLine (tagged_base_of root) pr
                     else zipErrLine (tagged_base_of root) pr),
        (((iter_files_under w root).take (K - z.count)).filter
          (fun pr => !srcOkP lp w stat0 pr)).map (zipErrLine (tagged_base_of root)),
        .log ("Zipping: " ++ root ++ " -> /" ++ tagged_base_of root ++ "/")
          :: E1, ?_, ?_, ?_⟩
      · simp only [zipRoots]
        rw [zipFiles_cancel lp w stat0 (tagged_base_of root)
          total K (iter_files_under w root)
          { z with events := z.events ++
              [.log ("Zipping: " ++ root ++ " -> /" ++ tagged_base_of root ++ "/")] }
          h1 (by simp [iter_files_under]; omega)]
        dsimp only
        rw [heq1]
        simp only [Prod.mk.injEq, ZSt.mk.injEq, and_true, true_and,
          List.append_assoc, List.cons_append, List.singleton_append,
          List.nil_append, List.length_take, iter_files_under]
        omega
      · rw [List.length_map]
        have h3 := List.length_filter_le (srcOkP lp w stat0)
          ((iter_files_under w root).take (K - z.count))
        have h4 : ((iter_files_under w root).take (K - z.count)).length
            ≤ K - z.count := by simp [List.length_take]
        omega
      · intro e he
        rcases List.mem_cons.mp he with rfl | he2
        · exact Or.inl ⟨_, rfl⟩
        · exact hE1 e he2
    · -- this root completes; interrupted later
      obtain ⟨E1, heq1, hE1⟩ :=
        zipFiles_none_spec lp w stat0 (tagged_base_of root) total
          (iter_files_under w root)
          { z with events := z.events ++
              [.log ("Zipping: " ++ root ++ " -> /" ++ tagged_base_of root ++ "/")] }
      obtain ⟨En, Ll, Er, E, heq, hlen, hE⟩ :=
        ih { entries := z.entries ++
               ((iter_files_under w root).filter (srcOkP lp w stat0)).map
                 (fun pr => (lp pr.1, arcnameOf (tagged_base_of root) pr.2)),
             log_lines := z.log_lines ++ (iter_files_under w root).map
               (fun pr => if srcOkP lp w stat0 pr then zipOkLine (tagged_base_of root) pr
                          else zipErrLine (tagged_base_of root) pr),
             errors := z.errors ++
               ((iter_files_under w root).filter
                 (fun pr => !srcOkP lp w stat0 pr)).map (zipErrLine (tagged_base_of root)),
             count := z.count + (iter_files_under w root).length,
             events := (z.events ++
               [.log ("Zipping: " ++ root ++ " -> /" ++ tagged_base_of root ++ "/")]) ++ E1 }
          (by simp [iter_files_under]; omega)
          (by simp [count_total_files, iter_files_under]; omega)
      refine ⟨((iter_files_under w root).filter (srcOkP lp w stat0)).map
          (fun pr => (lp pr.1, arcnameOf (tagged_base_of root) pr.2)) ++ En,
        (iter_files_under w root).map
          (fun pr => if srcOkP lp w stat0 pr then zipOkLine (tagged_base_of root) pr
                     else zipErrLine (tagged_base_of root) pr) ++ Ll,
        ((iter_files_under w root).filter
          (fun pr => !srcOkP lp w stat0 pr)).map (zipErrLine (tagged_base_of root)) ++ Er,
        .log ("Zipping: " ++ root ++ " -> /" ++ tagged_base_of root ++ "/")
          :: (E1 ++ E), ?_, ?_, ?_⟩
      · simp only [zipRoots]
        rw [zipFiles_no_interrupt lp w stat0 (tagged_base_of root)
          total K (iter_files_under w root) _ (by simp [iter_files_under]; omega)]
        rw [heq1]
        dsimp only
        rw [heq]
        simp only [Prod.mk.injEq, ZSt.mk.injEq, and_true, true_and,
          List.append_assoc, List.cons_append, List.singleton_append,
          List.nil_append]
      · have h3 : (((iter_files_under w root).filter (srcOkP lp w stat0)).map
            (fun pr => (lp pr.1, arcnameOf (tagged_base_of root) pr.2))).length
            ≤ (iter_files_under w root).length := by
          rw [List.length_map]
          exact List.length_filter_le _ _
        rw [List.length_append]
        simp only [iter_files_under] at h3 hlen ⊢
        omega
      · intro e he
        rcases List.mem_cons.mp he with rfl | he2
        · exact Or.inl ⟨_, rfl⟩
        · rcases List.mem_append.mp he2 with h3 | h3
          · exact hE1 e h3
          · exact hE e h3

theorem progressEvents_append (a b : List Event) :
    progressEvents (a ++ b) = progressEvents a ++ progressEvents b :=
  List.filterMap_append a b _

theorem progressEvents_log (a : List Event) (m : String) :
    progressEvents (a ++ [.log m]) = progressEvents a := by
  rw [progressEvents_append]
  simp [progressEvents]

/-- One mirror per-file iteration appends exactly the coalesced progress
event (when `done+1` hits the emission condition) to the progress stream. -/
theorem mirrorFile_progress (lp : String → String) (w : World) (inc : Bool)
    (db : String) (total : Nat) (st : MSt) (pr : String × String) :
    progressEvents (mirrorFile lp w inc db total st pr).events =
      progressEvents st.events ++
        (if progressCond total (st.done + 1) then [(st.done + 1, max total 1)]
         else []) := by
  simp only [mirrorFile]
  split
  · split
    · rw [progressEvents_append]
      simp [progressEvents]
    · simp
  · rcases hm : copy2 w st.stat (lp pr.1) (lp (joinPath db pr.2)) with _ | m
    · simp only [hm]
      split
      · rw [progressEvents_append, progressEvents_log]
        simp [progressEvents]
      · simp [progressEvents_log]
    · simp only [hm]
      split
      · rw [progressEvents_append]
        simp [progressEvents]
      · simp

/-- Zip analogue of `mirrorFile_progress`. -/
theorem zipFile_progress (lp : String → String) (w : World) (stat0 : StatMap)
    (tb : String) (total : Nat) (z : ZSt) (pr : String × String) :
    progressEvents (zipFile lp w stat0 tb total z pr).events =
      progressEvents z.events ++
        (if progressCond total (z.count + 1) then [(z.count + 1, max total 1)]
         else []) := by
  simp only [zipFile]
  split
  · split
    · rw [progressEvents_append]
      simp [progressEvents]
    · simp
  · split
    · rw [progressEvents_append, progressEvents_log]
      simp [progressEvents]
    · simp [progressEvents_log]

theorem pRange_add (d0 a b : Nat) :
    pRange d0 (a + b) = pRange d0 a ++ pRange (d0 + a) b := by
  induction a generalizing d0 with
  | zero => simp [pRange]
  | succ a ih =>
    have h1 : d0 + (a + 1) = (d0 + 1) + a := by omega
    have h2 : (a + 1) + b = (a + b) + 1 := by omega
    rw [h2, pRange, pRange, ih (d0 + 1), h1]
    simp

theorem pRange_mem (d0 L d : Nat) : d ∈ pRange d0 L ↔ d0 < d ∧ d ≤ d0 + L := by
  induction L generalizing d0 with
  | zero =>
    simp only [pRange, List.not_mem_nil, false_iff]
    omega
  | succ L ih =>
    rw [pRange]
    simp only [List.mem_cons, ih (d0 + 1)]
    omega

theorem pRange_pairwise_lt (d0 L : Nat) : (pRange d0 L).Pairwise (· < ·) := by
  induction L generalizing d0 with
  | zero => exact List.Pairwise.nil
  | succ L ih =>
    rw [pRange]
    refine List.Pairwise.cons ?_ (ih (d0 + 1))
    intro d hd
    exact ((pRange_mem (d0 + 1) L d).mp hd).1

/-- With no cancellation, the mirror per-file loop emits exactly the
progress events at the coalesced `done` values, in order. -/
theorem mirrorFiles_progress (lp : String → String) (w : World) (inc : Bool)
    (db : String) (total : Nat) (files : List (String × String)) :
    ∀ st : MSt,
      progressEvents (mirrorFiles lp w inc db none total files st).1.events =
        progressEvents st.events ++
          ((pRange st.done files.length).filter (progressCond total)).map
            (fun d => (d, max total 1)) := by
  induction files with
  | nil => intro st; simp [mirrorFiles, pRange]
  | cons pr rest ih =>
    intro st
    rw [mirrorFiles, stopRead_none]
    simp only [Bool.false_eq_true, if_false]
    rw [ih (mirrorFile lp w inc db total st pr), mirrorFile_progress,
      mirrorFile_done]
    rw [List.length_cons, pRange, List.filter_cons]
    by_cases hpc : progressCond total (st.done + 1) = true
    · simp [hpc]
    · rw [Bool.not_eq_true] at hpc
      simp [hpc]

/-- Zip analogue of `mirrorFiles_progress`. -/
theorem zipFiles_progress (lp : String → String) (w : World) (stat0 : StatMap)
    (tb : String) (total : Nat) (files : List (String × String)) :
    ∀ z : ZSt,
      progressEvents (zipFiles lp w stat0 tb none total files z).1.events =
        progressEvents z.events ++
          ((pRange z.count files.length).filter (progressCond total)).map
            (fun d => (d, max total 1)) := by
  induction files with
  | nil => intro z; simp [zipFiles, pRange]
  | cons pr rest ih =>
    intro z
    rw [zipFiles, stopRead_none]
    simp only [Bool.false_eq_true, if_false]
    rw [ih (zipFile lp w stat0 tb total z pr), zipFile_progress,
      zipFile_count]
    rw [List.length_cons, pRange, List.filter_cons]
    by_cases hpc : progressCond total (z.count + 1) = true
    · simp [hpc]
    · rw [Bool.not_eq_true] at hpc
      simp [hpc]

/-- With no cancellation, the mirror root loop emits exactly the progress
events at the coalesced `done` values `1..total_enumerated`, in order. -/
theorem mirrorRoots_progress (lp : String → String) (w : World) (inc : Bool)
    (total : Nat) (bd : String) (roots : List String) :
    ∀ st : MSt,
      progressEvents (mirrorRoots lp w inc none total bd roots st).1.events =
        progressEvents st.events ++
          ((pRange st.done (count_total_files w roots)).filter
            (progressCond total)).map (fun d => (d, max total 1)) := by
  induction roots with
  | nil => intro st; simp [mirrorRoots, count_total_files, pRange]
  | cons root rest ih =>
    intro st
    obtain ⟨sm1, Ls1, er1, cp1, E1, heq1, -, -⟩ :=
      mirrorFiles_none_spec lp w inc (joinPath bd (tagged_base_of root)) total
        (iter_files_under w root)
        { st with events := st.events ++
            [.log ("Copying: " ++ root ++ " -> " ++ joinPath bd (tagged_base_of root))] }
    have hp1 := mirrorFiles_progress lp w inc (joinPath bd (tagged_base_of root))
      total (iter_files_under w root)
      { st with events := st.events ++
          [.log ("Copying: " ++ root ++ " -> " ++ joinPath bd (tagged_base_of root))] }
    rw [heq1] at hp1
    simp only [mirrorRoots]
    rw [heq1]
    dsimp only
    rw [ih]
    dsimp only at hp1
    rw [hp1, progressEvents_log]
    simp only [count_total_files, List.map_cons, List.sum_cons,
      iter_files_under]
    rw [pRange_add, List.filter_append, List.map_append, List.append_assoc]

/-- Zip analogue of `mirrorRoots_progress`. -/
theorem zipRoots_progress (lp : String → String) (w : World) (stat0 : StatMap)
    (total : Nat) (roots : List String) :
    ∀ z : ZSt,
      progressEvents (zipRoots lp w stat0 none total roots z).1.events =
        progressEvents z.events ++
          ((pRange z.count (count_total_files w roots)).filter
            (progressCond total)).map (fun d => (d, max total 1)) := by
  induction roots with
  | nil => intro z; simp [zipRoots, count_total_files, pRange]
  | cons root rest ih =>
    intro z
    obtain ⟨E1, heq1, -⟩ :=
      zipFiles_none_spec lp w stat0 (tagged_base_of root) total
        (iter_files_under w root)
        { z with events := z.events ++
            [.log ("Zipping: " ++ root ++ " -> /" ++ tagged_base_of root ++ "/")] }
    have hp1 := zipFiles_progress lp w stat0 (tagged_base_of root)
      total (iter_files_under w root)
      { z with events := z.events ++
          [.log ("Zipping: " ++ root ++ " -> /" ++ tagged_base_of root ++ "/")] }
    rw [heq1] at hp1
    simp only [zipRoots]
    rw [heq1]
    dsimp only
    rw [ih]
    dsimp only at hp1
    rw [hp1, progressEvents_log]
    simp only [count_total_files, List.map_cons, List.sum_cons,
      iter_files_under]
    rw [pRange_add, List.filter_append, List.map_append, List.append_assoc]

/-- Whatever the cancellation history, the mirror per-file loop only appends
log/progress events. -/
theorem mirrorFiles_any_events (lp : String → String) (w : World) (inc : Bool)
    (db : String) (stopAt : Option Nat) (total : Nat)
    (files : List (String × String)) :
    ∀ st : MSt,
      ∃ E, (mirrorFiles lp w inc db stopAt total files st).1.events
          = st.events ++ E ∧ ∀ e ∈ E, evOK total e := by
  induction files with
  | nil => intro st; exact ⟨[], by simp [mirrorFiles], by simp⟩
  | cons pr rest ih =>
    intro st
    rw [mirrorFiles]
    by_cases hs : stopRead stopAt st.done = true
    · simp only [hs, if_true]
      exact ⟨[], by simp, by simp⟩
    · rw [Bool.not_eq_true] at hs
      simp only [hs, Bool.false_eq_true, if_false]
      obtain ⟨sm1, l, er1, cp1, E1, heq1, -, hE1⟩ :=
        mirrorFile_generic lp w inc db total st pr
      obtain ⟨E, hev, hE⟩ := ih (mirrorFile lp w inc db total st pr)
      rw [heq1] at hev
      refine ⟨E1 ++ E, ?_, ?_⟩
      · rw [heq1, hev]
        simp
      · intro e he
        rcases List.mem_append.mp he with h | h
        · exact hE1 e h
        · exact hE e h

/-- Whatever the cancellation history, the mirror root loop only appends
log/progress events. -/
theorem mirrorRoots_any_events (lp : String → String) (w : World) (inc : Bool)
    (stopAt : Option Nat) (total : Nat) (bd : String) (roots : List String) :
    ∀ st : MSt,
      ∃ E, (mirrorRoots lp w inc stopAt total bd roots st).1.events
          = st.events ++ E ∧ ∀ e ∈ E, evOK total e := by
  induction roots with
  | nil => intro st; exact ⟨[], by simp [mirrorRoots], by simp⟩
  | cons root rest ih =>
    intro st
    obtain ⟨E1, hev1, hE1⟩ :=
      mirrorFiles_any_events lp w inc (joinPath bd (tagged_base_of root))
        stopAt total (iter_files_under w root)
        { st with events := st.events ++
            [.log ("Copying: " ++ root ++ " -> " ++ joinPath bd (tagged_base_of root))] }
    simp only [mirrorRoots]
    rcases hsplit : mirrorFiles lp w inc (joinPath bd (tagged_base_of root))
        stopAt total (iter_files_under w root)
        { st with events := st.events ++
            [.log ("Copying: " ++ root ++ " -> " ++ joinPath bd (tagged_base_of root))] }
      with ⟨st2, b⟩
    rw [hsplit] at hev1
    dsimp only at hev1
    cases b
    · obtain ⟨E, hev, hE⟩ := ih st2
      refine ⟨.log ("Copying: " ++ root ++ " -> " ++ joinPath bd (tagged_base_of root))
          :: (E1 ++ E), ?_, ?_⟩
      · rw [hev, hev1]
        simp
      · intro e he
        rcases List.mem_cons.mp he with rfl | he2
        · exact Or.inl ⟨_, rfl⟩
        · rcases List.mem_append.mp he2 with h | h
          · exact hE1 e h
          · exact hE e h
    · refine ⟨.log ("Copying: " ++ root ++ " -> " ++ joinPath bd (tagged_base_of root))
          :: E1, ?_, ?_⟩
      · rw [hev1]
        simp
      · intro e he
        rcases List.mem_cons.mp he with rfl | he2
        · exact Or.inl ⟨_, rfl⟩
        · exact hE1 e he2

/-- Zip analogue of `mirrorFiles_any_events`. -/
theorem zipFiles_any_events (lp : String → String) (w : World)
    (stat0 : StatMap) (tb : String) (stopAt : Option Nat) (total : Nat)
    (files : List (String × String)) :
    ∀ z : ZSt,
      ∃ E, (zipFiles lp w stat0 tb stopAt total files z).1.events
          = z.events ++ E ∧ ∀ e ∈ E, evOK total e := by
  induction files with
  | nil => intro z; exact ⟨[], by simp [zipFiles], by simp⟩
  | cons pr rest ih =>
    intro z
    rw [zipFiles]
    by_cases hs : stopRead stopAt z.count = true
    · simp only [hs, if_true]
      exact ⟨[], by simp, by simp⟩
    · rw [Bool.not_eq_true] at hs
      simp only [hs, Bool.false_eq_true, if_false]
      obtain ⟨E1, heq1, hE1⟩ := zipFile_generic lp w stat0 tb total z pr
      obtain ⟨E, hev, hE⟩ := ih (zipFile lp w stat0 tb total z pr)
      rw [heq1] at hev
      refine ⟨E1 ++ E, ?_, ?_⟩
      · rw [heq1, hev]
        simp
      · intro e he
        rcases List.mem_append.mp he with h | h
        · exact hE1 e h
        · exact hE e h

/-- Zip analogue of `mirrorRoots_any_events`. -/
theorem zipRoots_any_events (lp : String → String) (w : World)
    (stat0 : StatMap) (stopAt : Option Nat) (total : Nat)
    (roots : List String) :
    ∀ z : ZSt,
      ∃ E, (zipRoots lp w stat0 stopAt total roots z).1.events
          = z.events ++ E ∧ ∀ e ∈ E, evOK total e := by
  induction roots with
  | nil => intro z; exact ⟨[], by simp [zipRoots], by simp⟩
  | cons root rest ih =>
    intro z
    obtain ⟨E1, hev1, hE1⟩ :=
      zipFiles_any_events lp w stat0 (tagged_base_of root) stopAt total
        (iter_files_under w root)
        { z with events := z.events ++
            [.log ("Zipping: " ++ root ++ " -> /" ++ tagged_base_of root ++ "/")] }
    simp only [zipRoots]
    rcases hsplit : zipFiles lp w stat0 (tagged_base_of root) stopAt total
        (iter_files_under w root)
        { z with events := z.events ++
            [.log ("Zipping: " ++ root ++ " -> /" ++ tagged_base_of root ++ "/")] }
      with ⟨z2, b⟩
    rw [hsplit] at hev1
    dsimp only at hev1
    cases b
    · obtain ⟨E, hev, hE⟩ := ih z2
      refine ⟨.log ("Zipping: " ++ root ++ " -> /" ++ tagged_base_of root ++ "/")
          :: (E1 ++ E), ?_, ?_⟩
      · rw [hev, hev1]
        simp
      · intro e he
        rcases List.mem_cons.mp he with rfl | he2
        · exact Or.inl ⟨_, rfl⟩
        · rcases List.mem_append.mp he2 with h | h
          · exact hE1 e h
          · exact hE e h
    · refine ⟨.log ("Zipping: " ++ root ++ " -> /" ++ tagged_base_of root ++ "/")
          :: E1, ?_, ?_⟩
      · rw [hev1]
        simp
      · intro e he
        rcases List.mem_cons.mp he with rfl | he2
        · exact Or.inl ⟨_, rfl⟩
        · exact hE1 e he2

/-- Anatomy of every `run` invocation: the warning logs, the initial
progress report over `max(total, 1)`, a body of log/progress events only,
then one final log line immediately followed by the single terminal event;
when the terminal is `done`, the final log line is the error summary. -/
theorem engineRun_shape (lp : String → String) (env : Env) (w : World)
    (stat0 : StatMap) (bw : BackupWorker) (stopAt : Option Nat) :
    ∃ (E : List Event) (m : String) (t : Event),
      (engineRun lp env w stat0 bw stopAt).events =
        warnEvents w bw ++
          (Event.progress 0 (max (count_total_files w (existingSources w bw)) 1)
            :: (E ++ [.log m, t])) ∧
      (∀ e ∈ E, evOK (count_total_files w (existingSources w bw)) e) ∧
      t.isTerminal = true ∧
      (∀ tgt, t = .done tgt →
        m = summaryLine (engineRun lp env w stat0 bw stopAt).errors) := by
  simp only [engineRun]
  by_cases hz : bw.zip_mode = true
  · simp only [hz, if_true]
    by_cases hcf : w.createFails (mk_backup_target env bw.dest_root true) = true
    · simp only [hcf, if_true]
      refine ⟨[.log ("ZIP mode: " ++ mk_backup_target env bw.dest_root true)],
        fatal_log, .failed oserror_text, ?_, ?_, rfl, ?_⟩
      · simp [warnEvents]
      · rintro e he
        simp at he
        subst he
        exact Or.inl ⟨_, rfl⟩
      · intro tgt h
        cases h
    · simp only [hcf, Bool.false_eq_true, if_false]
      obtain ⟨E2, hev2, hE2⟩ :=
        zipRoots_any_events lp w stat0 stopAt
          (count_total_files w (existingSources w bw)) (existingSources w bw)
          ⟨[], [], [], 0,
            ((warnEvents w bw ++
              [Event.progress 0 (max (count_total_files w (existingSources w bw)) 1)]) ++
              [Event.log ("ZIP mode: " ++ mk_backup_target env bw.dest_root true)])⟩
      rcases hzr : zipRoots lp w stat0 stopAt
          (count_total_files w (existingSources w bw)) (existingSources w bw)
          ⟨[], [], [], 0,
            ((warnEvents w bw ++
              [Event.progress 0 (max (count_total_files w (existingSources w bw)) 1)]) ++
              [Event.log ("ZIP mode: " ++ mk_backup_target env bw.dest_root true)])⟩
        with ⟨z, b⟩
      rw [hzr] at hev2
      dsimp only at hev2
      rw [warnEvents] at hzr
      simp only [warnEvents]
      rw [hzr]
      cases b
      · dsimp only
        refine ⟨.log ("ZIP mode: " ++ mk_backup_target env bw.dest_root true) :: E2,
          summaryLine z.errors, .done (mk_backup_target env bw.dest_root true),
          ?_, ?_, rfl, ?_⟩
        · rw [hev2]
          simp [warnEvents]
        · intro e he
          rcases List.mem_cons.mp he with rfl | he2
          · exact Or.inl ⟨_, rfl⟩
          · exact hE2 e he2
        · intro tgt h
          rfl
      · dsimp only
        refine ⟨.log ("ZIP mode: " ++ mk_backup_target env bw.dest_root true) :: E2,
          "Backup cancelled by user.", .cancelled, ?_, ?_, rfl, ?_⟩
        · rw [hev2]
          simp [warnEvents]
        · intro e he
          rcases List.mem_cons.mp he with rfl | he2
          · exact Or.inl ⟨_, rfl⟩
          · exact hE2 e he2
        · intro tgt h
          cases h
  · simp only [Bool.not_eq_true] at hz
    simp only [hz, Bool.false_eq_true, if_false]
    by_cases hcf : w.createFails (mk_backup_target env bw.dest_root false) = true
    · simp only [hcf, if_true]
      refine ⟨[], fatal_log, .failed oserror_text, ?_, by simp, rfl, ?_⟩
      · simp [warnEvents]
      · intro tgt h
        cases h
    · simp only [hcf, Bool.false_eq_true, if_false]
      by_cases hcf2 : w.createFails
          (joinPath (mk_backup_target env bw.dest_root false) "backup_log.txt") = true
      · simp only [hcf2, if_true]
        refine ⟨[.log ("Mirror mode: " ++ mk_backup_target env bw.dest_root false)],
          fatal_log, .failed oserror_text, ?_, ?_, rfl, ?_⟩
        · simp [warnEvents]
        · rintro e he
          simp at he
          subst he
          exact Or.inl ⟨_, rfl⟩
        · intro tgt h
          cases h
      · simp only [hcf2, Bool.false_eq_true, if_false]
        obtain ⟨E2, hev2, hE2⟩ :=
          mirrorRoots_any_events lp w bw.incremental stopAt
            (count_total_files w (existingSources w bw))
            (mk_backup_target env bw.dest_root false) (existingSources w bw)
            ⟨stat0, [], [], 0,
              ((warnEvents w bw ++
                [Event.progress 0 (max (count_total_files w (existingSources w bw)) 1)]) ++
                [Event.log ("Mirror mode: " ++ mk_backup_target env bw.dest_root false)]), []⟩
        rcases hmr : mirrorRoots lp w bw.incremental stopAt
            (count_total_files w (existingSources w bw))
            (mk_backup_target env bw.dest_root false) (existingSources w bw)
            ⟨stat0, [], [], 0,
              ((warnEvents w bw ++
                [Event.progress 0 (max (count_total_files w (existingSources w bw)) 1)]) ++
                [Event.log ("Mirror mode: " ++ mk_backup_target env bw.dest_root false)]), []⟩
          with ⟨st2, b⟩
        rw [hmr] at hev2
        dsimp only at hev2
        rw [warnEvents] at hmr
        simp only [warnEvents]
        rw [hmr]
        cases b
        · dsimp only
          refine ⟨.log ("Mirror mode: " ++ mk_backup_target env bw.dest_root false) :: E2,
            summaryLine st2.errors, .done (mk_backup_target env bw.dest_root false),
            ?_, ?_, rfl, ?_⟩
          · rw [hev2]
            simp [warnEvents]
          · intro e he
            rcases List.mem_cons.mp he with rfl | he2
            · exact Or.inl ⟨_, rfl⟩
            · exact hE2 e he2
          · intro tgt h
            rfl
        · dsimp only
          refine ⟨.log ("Mirror mode: " ++ mk_backup_target env bw.dest_root false) :: E2,
            "Backup cancelled by user.", .cancelled, ?_, ?_, rfl, ?_⟩
          · rw [hev2]
            simp [warnEvents]
          · intro e he
            rcases List.mem_cons.mp he with rfl | he2
            · exact Or.inl ⟨_, rfl⟩
            · exact hE2 e he2
          · intro tgt h
            cases h

theorem progressEvents_warnEvents (w : World) (bw : BackupWorker) :
    progressEvents (warnEvents w bw) = [] := by
  simp [warnEvents, progressEvents, List.filterMap_eq_nil_iff]

theorem progressEvents_terminal_pair (m : String) (t : Event)
    (ht : t.isTerminal = true) : progressEvents [.log m, t] = [] := by
  cases t <;> simp_all [progressEvents, Event.isTerminal]

theorem warnEvents_not_terminal (w : World) (bw : BackupWorker) :
    ∀ e ∈ warnEvents w bw, e.isTerminal = false := by
  intro e he
  rw [warnEvents] at he
  obtain ⟨m, -, rfl⟩ := List.mem_map.mp he
  rfl

theorem evOK_not_terminal (total : Nat) (e : Event) (h : evOK total e) :
    e.isTerminal = false := by
  rcases h with ⟨m, rfl⟩ | ⟨d, rfl⟩ <;> rfl

/-- C6 (amended): every run enqueues exactly one terminal event — it is the
very last event, immediately preceded by a final Log line; when the
terminal is `Done(target)`, that log line is the "0 errors" / "N error(s)"
summary.  (In the original claim the summary line was said to precede
*every* terminal; cancelled and failed runs instead end with
"Backup cancelled by user." / the fatal-error log, see the
counterexample.) -/
theorem C6_exactly_one_terminal_event (env : Env) (w : World) (stat0 : StatMap)
    (bw : BackupWorker) (stopAt : Option Nat) :
    ∃ (pre : List Event) (m : String) (t : Event),
      (WorkerPy.run env w stat0 bw stopAt).events = pre ++ [.log m, t] ∧
      t.isTerminal = true ∧
      (∀ e ∈ pre, e.isTerminal = false) ∧
      (∀ tgt, t = .done tgt →
        m = summaryLine (WorkerPy.run env w stat0 bw stopAt).errors) := by
  obtain ⟨E, m, t, hev, hE, ht, hdone⟩ :=
    engineRun_shape (Windows.win_longpath env) env w stat0 bw stopAt
  refine ⟨warnEvents w bw ++
    Event.progress 0 (max (count_total_files w (existingSources w bw)) 1) :: E,
    m, t, ?_, ht, ?_, hdone⟩
  · rw [WorkerPy.run, hev]
    simp
  · intro e he
    rcases List.mem_append.mp he with h | h
    · exact warnEvents_not_terminal w bw e h
    · rcases List.mem_cons.mp h with rfl | h2
      · rfl
      · exact evOK_not_terminal _ e (hE e h2)

/-- C6 counterexample: a cancelled run's terminal event is immediately
preceded by the log line "Backup cancelled by user.", not by the
"0 errors" / "N error(s)" summary line. -/
theorem C6_cancelled_run_lacks_summary_line :
    (WorkerPy.run envT1 wTwo stTwo bwMirror (some 1)).events =
      [ .progress 0 2
      , .log "Mirror mode: d/EliteDangerousBackup_PC_T1"
      , .log "Copying: s -> d/EliteDangerousBackup_PC_T1/s"
      , .log "Backup cancelled by user."
      , .cancelled ] ∧
    "Backup cancelled by user."
      ≠ summaryLine (WorkerPy.run envT1 wTwo stTwo bwMirror (some 1)).errors :=
  ⟨by rfl, by decide⟩

/-- Over zero enumerated files, the only progress event of a run is the
initial `(0, 1)` report, whatever the mode, failure switches and
cancellation history. -/
theorem engineRun_progress_zero (lp : String → String) (env : Env) (w : World)
    (stat0 : StatMap) (bw : BackupWorker) (stopAt : Option Nat)
    (h : count_total_files w (existingSources w bw) = 0) :
    progressEvents (engineRun lp env w stat0 bw stopAt).events = [(0, 1)] := by
  simp only [engineRun, h]
  by_cases hz : bw.zip_mode = true
  · simp only [hz, if_true]
    by_cases hcf : w.createFails (mk_backup_target env bw.dest_root true) = true
    · simp only [hcf, if_true]
      simp [progressEvents_append, progressEvents_warnEvents, progressEvents]
    · simp only [hcf, Bool.false_eq_true, if_false]
      have hred : zipRoots lp w stat0 stopAt 0 (existingSources w bw)
          ⟨[], [], [], 0,
            ((missingSources w bw).map fun m =>
              Event.log ("[WARN] Source not found or unset (skipping): " ++ m)) ++
              [Event.progress 0 (max 0 1)] ++
              [Event.log ("ZIP mode: " ++ mk_backup_target env bw.dest_root true)]⟩
          = zipRoots lp w stat0 none 0 (existingSources w bw)
          ⟨[], [], [], 0,
            ((missingSources w bw).map fun m =>
              Event.log ("[WARN] Source not found or unset (skipping): " ++ m)) ++
              [Event.progress 0 (max 0 1)] ++
              [Event.log ("ZIP mode: " ++ mk_backup_target env bw.dest_root true)]⟩ := by
        cases stopAt with
        | none => rfl
        | some K =>
          exact zipRoots_no_interrupt lp w stat0 0 K (existingSources w bw) _
            (by simp [h])
      rw [hred]
      obtain ⟨E2, heq2, -⟩ := zipRoots_none_spec lp w stat0 0
        (existingSources w bw)
        ⟨[], [], [], 0,
          ((missingSources w bw).map fun m =>
            Event.log ("[WARN] Source not found or unset (skipping): " ++ m)) ++
            [Event.progress 0 (max 0 1)] ++
            [Event.log ("ZIP mode: " ++ mk_backup_target env bw.dest_root true)]⟩
      have hp := zipRoots_progress lp w stat0 0 (existingSources w bw)
        ⟨[], [], [], 0,
          ((missingSources w bw).map fun m =>
            Event.log ("[WARN] Source not found or unset (skipping): " ++ m)) ++
            [Event.progress 0 (max 0 1)] ++
            [Event.log ("ZIP mode: " ++ mk_backup_target env bw.dest_root true)]⟩
      rw [heq2] at hp ⊢
      dsimp only at hp ⊢
      rw [h] at hp
      simp only [pRange] at hp
      rw [progressEvents_append, hp]
      have hw : progressEvents
          (((missingSources w bw).map fun m =>
            Event.log ("[WARN] Source not found or unset (skipping): " ++ m)) ++
            [Event.progress 0 (max 0 1)] ++
            [Event.log ("ZIP mode: " ++ mk_backup_target env bw.dest_root true)]) = [(0, 1)] := by
        rw [progressEvents_append, progressEvents_append]
        simp [progressEvents, List.filterMap_eq_nil_iff]
      rw [hw]
      simp [progressEvents]
  · simp only [Bool.not_eq_true] at hz
    simp only [hz, Bool.false_eq_true, if_false]
    by_cases hcf : w.createFails (mk_backup_target env bw.dest_root false) = true
    · simp only [hcf, if_true]
      simp [progressEvents_append, progressEvents]
    · simp only [hcf, Bool.false_eq_true, if_false]
      by_cases hcf2 : w.createFails
          (joinPath (mk_backup_target env bw.dest_root false) "backup_log.txt") = true
      · simp only [hcf2, if_true]
        simp [progressEvents_append, progressEvents]
      · simp only [hcf2, Bool.false_eq_true, if_false]
        have hred : mirrorRoots lp w bw.incremental stopAt 0
            (mk_backup_target env bw.dest_root false) (existingSources w bw)
            ⟨stat0, [], [], 0,
              ((missingSources w bw).map fun m =>
                Event.log ("[WARN] Source not found or unset (skipping): " ++ m)) ++
                [Event.progress 0 (max 0 1)] ++
                [Event.log ("Mirror mode: " ++ mk_backup_target env bw.dest_root false)], []⟩
            = mirrorRoots lp w bw.incremental none 0
            (mk_backup_target env bw.dest_root false) (existingSources w bw)
            ⟨stat0, [], [], 0,
              ((missingSources w bw).map fun m =>
                Event.log ("[WARN] Source not found or unset (skipping): " ++ m)) ++
                [Event.progress 0 (max 0 1)] ++
                [Event.log ("Mirror mode: " ++ mk_backup_target env bw.dest_root false)], []⟩ := by
          cases stopAt with
          | none => rfl
          | some K =>
            exact mirrorRoots_no_interrupt lp w bw.incremental 0 K
              (mk_backup_target env bw.dest_root false) (existingSources w bw) _
              (by simp [h])
        rw [hred]
        obtain ⟨sm2, Ls2, er2, cp2, E2, heq2, -, -⟩ :=
          mirrorRoots_none_spec lp w bw.incremental 0
            (mk_backup_target env bw.dest_root false) (existingSources w bw)
            ⟨stat0, [], [], 0,
              ((missingSources w bw).map fun m =>
                Event.log ("[WARN] Source not found or unset (skipping): " ++ m)) ++
                [Event.progress 0 (max 0 1)] ++
                [Event.log ("Mirror mode: " ++ mk_backup_target env bw.dest_root false)], []⟩
        have hp := mirrorRoots_progress lp w bw.incremental 0
          (mk_backup_target env bw.dest_root false) (existingSources w bw)
          ⟨stat0, [], [], 0,
            ((missingSources w bw).map fun m =>
              Event.log ("[WARN] Source not found or unset (skipping): " ++ m)) ++
              [Event.progress 0 (max 0 1)] ++
              [Event.log ("Mirror mode: " ++ mk_backup_target env bw.dest_root false)], []⟩
        rw [heq2] at hp ⊢
        dsimp only at hp ⊢
        rw [h] at hp
        simp only [pRange] at hp
        rw [progressEvents_append, hp]
        have hw : progressEvents
            (((missingSources w bw).map fun m =>
              Event.log ("[WARN] Source not found or unset (skipping): " ++ m)) ++
              [Event.progress 0 (max 0 1)] ++
              [Event.log ("Mirror mode: " ++ mk_backup_target env bw.dest_root false)]) = [(0, 1)] := by
          rw [progressEvents_append, progressEvents_append]
          simp [progressEvents, List.filterMap_eq_nil_iff]
        rw [hw]
        simp [progressEvents]

/-- C10: every Progress event a run enqueues carries
`max(counted_total, 1)` as its total — never zero — and a run over zero
files emits exactly the initial `(0, 1)` Progress event, in which `done`
stays strictly below the reported total. -/
theorem C10_progress_total_never_zero (env : Env) (w : World) (stat0 : StatMap)
    (bw : BackupWorker) (stopAt : Option Nat) :
    (∀ p ∈ progressEvents (WorkerPy.run env w stat0 bw stopAt).events,
        p.2 = max (count_total_files w (existingSources w bw)) 1 ∧ 1 ≤ p.2) ∧
    (count_total_files w (existingSources w bw) = 0 →
      progressEvents (WorkerPy.run env w stat0 bw stopAt).events = [(0, 1)] ∧
      ∀ p ∈ progressEvents (WorkerPy.run env w stat0 bw stopAt).events,
        p.1 < p.2) := by
  constructor
  · intro p hp
    obtain ⟨E, m, t, hev, hE, ht, -⟩ :=
      engineRun_shape (Windows.win_longpath env) env w stat0 bw stopAt
    rw [WorkerPy.run, hev] at hp
    have hsplit : warnEvents w bw ++
        Event.progress 0 (max (count_total_files w (existingSources w bw)) 1)
          :: (E ++ [.log m, t]) =
        (warnEvents w bw ++
          [Event.progress 0 (max (count_total_files w (existingSources w bw)) 1)])
          ++ E ++ [.log m, t] := by simp
    rw [hsplit, progressEvents_append, progressEvents_append,
      progressEvents_append, progressEvents_warnEvents,
      progressEvents_terminal_pair m t ht] at hp
    simp only [progressEvents, List.filterMap_cons, List.filterMap_nil] at hp
    rcases List.mem_append.mp hp with hp1 | hp1
    · rcases List.mem_append.mp hp1 with hp2 | hp2
      · simp at hp2
        subst hp2
        exact ⟨rfl, le_max_right _ 1⟩
      · obtain ⟨e, he, hme⟩ := List.mem_filterMap.mp hp2
        rcases hE e he with ⟨m', rfl⟩ | ⟨d, rfl⟩
        · simp at hme
        · simp at hme
          subst hme
          exact ⟨rfl, le_max_right _ 1⟩
    · simp at hp1
  · intro h
    have hz := engineRun_progress_zero (Windows.win_longpath env) env w stat0
      bw stopAt h
    rw [WorkerPy.run]
    refine ⟨hz, ?_⟩
    intro p hp
    rw [hz] at hp
    simp at hp
    subst hp
    exact Nat.zero_lt_one

/-- C10 witness: a run over a source directory with zero files reports
exactly one Progress event, `(0, 1)`. -/
theorem C10_progress_total_never_zero_witness :
    progressEvents (WorkerPy.run envT1 wEmpty stOne bwMirror none).events
      = [(0, 1)] :=
  ((C10_progress_total_never_zero envT1 wEmpty stOne bwMirror none).2 rfl).1

/-- A run with no cancellation and no fatal creation failure processes all
`N` enumerated files and reports exactly the initial `(0, max N 1)`
progress event followed by the coalesced per-file reports (every 5th file
and the final file). -/
theorem engineRun_none_progress (lp : String → String) (env : Env) (w : World)
    (stat0 : StatMap) (bw : BackupWorker)
    (hnf : w.createFails (mk_backup_target env bw.dest_root bw.zip_mode) = false)
    (hnf2 : bw.zip_mode = false →
      w.createFails (joinPath (mk_backup_target env bw.dest_root false)
        "backup_log.txt") = false) :
    (engineRun lp env w stat0 bw none).filesProcessed
        = count_total_files w (existingSources w bw) ∧
    progressEvents (engineRun lp env w stat0 bw none).events =
      (0, max (count_total_files w (existingSources w bw)) 1) ::
        ((pRange 0 (count_total_files w (existingSources w bw))).filter
          (progressCond (count_total_files w (existingSources w bw)))).map
          (fun d => (d, max (count_total_files w (existingSources w bw)) 1)) := by
  simp only [engineRun]
  by_cases hz : bw.zip_mode = true
  · rw [hz] at hnf
    simp only [hz, if_true, hnf, Bool.false_eq_true, if_false]
    obtain ⟨E2, heq2, -⟩ := zipRoots_none_spec lp w stat0
      (count_total_files w (existingSources w bw)) (existingSources w bw)
      ⟨[], [], [], 0,
        ((missingSources w bw).map fun m =>
          Event.log ("[WARN] Source not found or unset (skipping): " ++ m)) ++
          [Event.progress 0 (max (count_total_files w (existingSources w bw)) 1)] ++
          [Event.log ("ZIP mode: " ++ mk_backup_target env bw.dest_root true)]⟩
    have hp := zipRoots_progress lp w stat0
      (count_total_files w (existingSources w bw)) (existingSources w bw)
      ⟨[], [], [], 0,
        ((missingSources w bw).map fun m =>
          Event.log ("[WARN] Source not found or unset (skipping): " ++ m)) ++
          [Event.progress 0 (max (count_total_files w (existingSources w bw)) 1)] ++
          [Event.log ("ZIP mode: " ++ mk_backup_target env bw.dest_root true)]⟩
    rw [heq2] at hp ⊢
    dsimp only at hp ⊢
    have hw : progressEvents
        (((missingSources w bw).map fun m =>
          Event.log ("[WARN] Source not found or unset (skipping): " ++ m)) ++
          [Event.progress 0 (max (count_total_files w (existingSources w bw)) 1)] ++
          [Event.log ("ZIP mode: " ++ mk_backup_target env bw.dest_root true)])
        = [(0, max (count_total_files w (existingSources w bw)) 1)] := by
      rw [progressEvents_append, progressEvents_append]
      simp [progressEvents, List.filterMap_eq_nil_iff]
    rw [hw] at hp
    constructor
    · exact Nat.zero_add _
    · rw [progressEvents_append, hp]
      simp [progressEvents]
  · simp only [Bool.not_eq_true] at hz
    rw [hz] at hnf
    have hnf2' := hnf2 hz
    simp only [hz, Bool.false_eq_true, if_false, hnf, hnf2']
    obtain ⟨sm2, Ls2, er2, cp2, E2, heq2, -, -⟩ :=
      mirrorRoots_none_spec lp w bw.incremental
        (count_total_files w (existingSources w bw))
        (mk_backup_target env bw.dest_root false) (existingSources w bw)
        ⟨stat0, [], [], 0,
          ((missingSources w bw).map fun m =>
            Event.log ("[WARN] Source not found or unset (skipping): " ++ m)) ++
            [Event.progress 0 (max (count_total_files w (existingSources w bw)) 1)] ++
            [Event.log ("Mirror mode: " ++ mk_backup_target env bw.dest_root false)], []⟩
    have hp := mirrorRoots_progress lp w bw.incremental
      (count_total_files w (existingSources w bw))
      (mk_backup_target env bw.dest_root false) (existingSources w bw)
      ⟨stat0, [], [], 0,
        ((missingSources w bw).map fun m =>
          Event.log ("[WARN] Source not found or unset (skipping): " ++ m)) ++
          [Event.progress 0 (max (count_total_files w (existingSources w bw)) 1)] ++
          [Event.log ("Mirror mode: " ++ mk_backup_target env bw.dest_root false)], []⟩
    rw [heq2] at hp ⊢
    dsimp only at hp ⊢
    have hw : progressEvents
        (((missingSources w bw).map fun m =>
          Event.log ("[WARN] Source not found or unset (skipping): " ++ m)) ++
          [Event.progress 0 (max (count_total_files w (existingSources w bw)) 1)] ++
          [Event.log ("Mirror mode: " ++ mk_backup_target env bw.dest_root false)])
        = [(0, max (count_total_files w (existingSources w bw)) 1)] := by
      rw [progressEvents_append, progressEvents_append]
      simp [progressEvents, List.filterMap_eq_nil_iff]
    rw [hw] at hp
    constructor
    · exact Nat.zero_add _
    · rw [progressEvents_append, hp]
      simp [progressEvents]

theorem getLast_of_pairwise_ub (l : List Nat) (N : Nat)
    (hp : l.Pairwise (· < ·)) (hN : N ∈ l) (hub : ∀ x ∈ l, x ≤ N) :
    l.getLast? = some N := by
  induction l with
  | nil => cases hN
  | cons a l ih =>
    cases l with
    | nil =>
      rcases List.mem_singleton.mp hN with rfl
      rfl
    | cons b l' =>
      rw [List.getLast?_cons_cons]
      rcases List.mem_cons.mp hN with rfl | hN2
      · exfalso
        have hab : N < b := (List.pairwise_cons.mp hp).1 b (List.mem_cons_self b l')
        have := hub b (List.mem_cons_of_mem N (List.mem_cons_self b l'))
        omega
      · exact ih (List.pairwise_cons.mp hp).2 hN2
          (fun x hx => hub x (List.mem_cons_of_mem a hx))

theorem dropLast_lt_of_pairwise (l : List Nat) (N : Nat)
    (hp : l.Pairwise (· < ·)) (hl : l.getLast? = some N) :
    ∀ x ∈ l.dropLast, x < N := by
  intro x hx
  have hsplit : l.dropLast ++ [N] = l :=
    List.dropLast_append_getLast? N hl
  rw [← hsplit] at hp
  have := (List.pairwise_append.mp hp).2.2
  exact this x hx N (List.mem_singleton.mpr rfl)

/-- C8: in a run with no cancellation and no fatal failure over `N ≥ 1`
files, the `done` counter is advanced exactly once per enumerated file
(`filesProcessed = N`); the Progress events are exactly the initial report
followed by one report per `done` value satisfying the coalescing condition
`done % 5 == 0 || done == total` (every 5th file and, unconditionally, the
final file); across these events `done` is non-decreasing, and it equals
the enumerated total exactly on the final event. -/
theorem C8_progress_counter_exact (env : Env) (w : World) (stat0 : StatMap)
    (bw : BackupWorker)
    (hN : 1 ≤ count_total_files w (existingSources w bw))
    (hnf : w.createFails (mk_backup_target env bw.dest_root bw.zip_mode) = false)
    (hnf2 : bw.zip_mode = false →
      w.createFails (joinPath (mk_backup_target env bw.dest_root false)
        "backup_log.txt") = false) :
    (WorkerPy.run env w stat0 bw none).filesProcessed
        = count_total_files w (existingSources w bw) ∧
    progressEvents (WorkerPy.run env w stat0 bw none).events =
      (0, max (count_total_files w (existingSources w bw)) 1) ::
        ((pRange 0 (count_total_files w (existingSources w bw))).filter
          (progressCond (count_total_files w (existingSources w bw)))).map
          (fun d => (d, max (count_total_files w (existingSources w bw)) 1)) ∧
    ((progressEvents (WorkerPy.run env w stat0 bw none).events).map
        Prod.fst).Pairwise (· ≤ ·) ∧
    ((progressEvents (WorkerPy.run env w stat0 bw none).events).map
        Prod.fst).getLast? = some (count_total_files w (existingSources w bw)) ∧
    (∀ x ∈ ((progressEvents (WorkerPy.run env w stat0 bw none).events).map
        Prod.fst).dropLast, x < count_total_files w (existingSources w bw)) := by
  obtain ⟨hfp, hpe⟩ :=
    engineRun_none_progress (Windows.win_longpath env) env w stat0 bw hnf hnf2
  have hD : (progressEvents (WorkerPy.run env w stat0 bw none).events).map
      Prod.fst = 0 ::
        (pRange 0 (count_total_files w (existingSources w bw))).filter
          (progressCond (count_total_files w (existingSources w bw))) := by
    rw [WorkerPy.run, hpe]
    simp [List.map_map, Function.comp_def, List.map_id']
  have hPlt : ((progressEvents (WorkerPy.run env w stat0 bw none).events).map
      Prod.fst).Pairwise (· < ·) := by
    rw [hD]
    refine List.Pairwise.cons ?_ ?_
    · intro x hx
      have := (pRange_mem 0 (count_total_files w (existingSources w bw)) x).mp
        (List.mem_of_mem_filter hx)
      omega
    · exact (pRange_pairwise_lt 0 _).sublist (List.filter_sublist _)
  have hNm : count_total_files w (existingSources w bw) ∈
      (progressEvents (WorkerPy.run env w stat0 bw none).events).map Prod.fst := by
    rw [hD]
    refine List.mem_cons_of_mem 0 (List.mem_filter.mpr ⟨?_, ?_⟩)
    · exact (pRange_mem 0 _ _).mpr (by omega)
    · simp [progressCond]
  have hub : ∀ x ∈ (progressEvents (WorkerPy.run env w stat0 bw none).events).map
      Prod.fst, x ≤ count_total_files w (existingSources w bw) := by
    intro x hx
    rw [hD] at hx
    rcases List.mem_cons.mp hx with rfl | hx2
    · omega
    · have := (pRange_mem 0 _ x).mp (List.mem_of_mem_filter hx2)
      omega
  have hlast := getLast_of_pairwise_ub _ _ hPlt hNm hub
  refine ⟨?_, ?_, hPlt.imp Nat.le_of_lt, hlast, ?_⟩
  · rw [WorkerPy.run]
    exact hfp
  · rw [WorkerPy.run]
    exact hpe
  · exact dropLast_lt_of_pairwise _ _ hPlt hlast

/-- C8 witness: a two-file mirror run processes both files and its final
progress report carries `done = total = 2`. -/
theorem C8_progress_counter_exact_witness :
    (WorkerPy.run envT1 wTwo stTwo bwMirror none).filesProcessed = 2 ∧
    ((progressEvents (WorkerPy.run envT1 wTwo stTwo bwMirror none).events).map
        Prod.fst).getLast? = some 2 :=
  ⟨((C8_progress_counter_exact envT1 wTwo stTwo bwMirror (by decide) rfl
      (fun _ => rfl)).1).trans (by rfl),
   (((C8_progress_counter_exact envT1 wTwo stTwo bwMirror (by decide) rfl
      (fun _ => rfl)).2).2.2.1).trans (by rfl)⟩

/-- C2 counterexample: an archive-mode run cancelled after 1 of 2 files
ends `Cancelled` with one entry written, but the archive holds NO
`backup_log.txt` member at all — the log member is only written on
completion, so it cannot "contain entries for exactly the files
attempted". -/
theorem C2_zip_cancel_has_no_log_member :
    (WorkerPy.run envT1 wTwo stTwo bwZip (some 1)).events.getLast?
        = some .cancelled ∧
    (WorkerPy.run envT1 wTwo stTwo bwZip (some 1)).filesProcessed = 1 ∧
    (WorkerPy.run envT1 wTwo stTwo bwZip (some 1)).zipEntries
        = [("s/a", "s/a")] ∧
    (WorkerPy.run envT1 wTwo stTwo bwZip (some 1)).zipLogMember = none :=
  ⟨by rfl, by rfl, by rfl, by rfl⟩

/-- C2 (amended): when the flag is set after `K` of `N` files (0 < K < N)
and the output container could be created, the run ends with the
`Cancelled` terminal event, exactly `K` files are attempted, and the
partial output is left in place: in mirror mode `backup_log.txt` holds the
header plus one entry for each of the first `K` enumerated files; in
archive mode the partial archive holds at most `K` entries and no
`backup_log.txt` member (the log member is only written on completion). -/
theorem C2_cancellation_after_K_files (env : Env) (w : World) (stat0 : StatMap)
    (bw : BackupWorker) (K : Nat) (hK0 : 0 < K)
    (hKN : K < count_total_files w (existingSources w bw))
    (hnf : w.createFails (mk_backup_target env bw.dest_root bw.zip_mode) = false)
    (hnf2 : bw.zip_mode = false →
      w.createFails (joinPath (mk_backup_target env bw.dest_root false)
        "backup_log.txt") = false) :
    (∃ pre, (WorkerPy.run env w stat0 bw (some K)).events
        = pre ++ [.log "Backup cancelled by user.", .cancelled]) ∧
    (WorkerPy.run env w stat0 bw (some K)).filesProcessed = K ∧
    (bw.zip_mode = false →
      ∃ Ls, (WorkerPy.run env w stat0 bw (some K)).mirrorLog
          = some (mirrorHeader env (mk_backup_target env bw.dest_root false)
              bw.incremental ++ Ls) ∧
        List.Forall₂ (fun pr l => entryFor pr.1 l)
          ((enumerated w (existingSources w bw)).take K) Ls) ∧
    (bw.zip_mode = true →
      (WorkerPy.run env w stat0 bw (some K)).zipLogMember = none ∧
      (WorkerPy.run env w stat0 bw (some K)).zipEntries.length ≤ K) := by
  rw [WorkerPy.run]
  simp only [engineRun]
  by_cases hz : bw.zip_mode = true
  · rw [hz] at hnf
    simp only [hz, if_true, hnf, Bool.false_eq_true, if_false]
    obtain ⟨En, Ll, Er, E, heq, hlen, -⟩ :=
      zipRoots_cancel_spec (Windows.win_longpath env) w stat0
        (count_total_files w (existingSources w bw)) K (existingSources w bw)
        ⟨[], [], [], 0,
          ((missingSources w bw).map fun m =>
            Event.log ("[WARN] Source not found or unset (skipping): " ++ m)) ++
            [Event.progress 0 (max (count_total_files w (existingSources w bw)) 1)] ++
            [Event.log ("ZIP mode: " ++ mk_backup_target env bw.dest_root true)]⟩
        (by dsimp only; omega) (by dsimp only; omega)
    rw [heq]
    dsimp only
    refine ⟨⟨_, rfl⟩, rfl, ?_, ?_⟩
    · intro hc
      simp at hc
    · intro _
      refine ⟨rfl, ?_⟩
      rw [List.length_append]
      simp at hlen ⊢
      omega
  · simp only [Bool.not_eq_true] at hz
    rw [hz] at hnf
    have hnf2' := hnf2 hz
    simp only [hz, Bool.false_eq_true, if_false, hnf, hnf2']
    obtain ⟨sm, Ls, er, cp, E, heq, hF, -⟩ :=
      mirrorRoots_cancel_spec (Windows.win_longpath env) w bw.incremental
        (count_total_files w (existingSources w bw)) K
        (mk_backup_target env bw.dest_root false) (existingSources w bw)
        ⟨stat0, [], [], 0,
          ((missingSources w bw).map fun m =>
            Event.log ("[WARN] Source not found or unset (skipping): " ++ m)) ++
            [Event.progress 0 (max (count_total_files w (existingSources w bw)) 1)] ++
            [Event.log ("Mirror mode: " ++ mk_backup_target env bw.dest_root false)], []⟩
        (by dsimp only; omega) (by dsimp only; omega)
    rw [heq]
    dsimp only
    refine ⟨⟨_, rfl⟩, rfl, ?_, ?_⟩
    · intro _
      refine ⟨Ls, ?_, ?_⟩
      · simp
      · simpa using hF
    · intro hc
      simp at hc

theorem pathExists_congr (w : World) (st1 st2 : StatMap) (p : String)
    (h : st1 p = st2 p) : pathExists w st1 p = pathExists w st2 p := by
  rw [pathExists, pathExists, h]

theorem is_unchanged_congr (w : World) (st1 st2 : StatMap) (s d : String)
    (tol : ℚ) (hs : st1 s = st2 s) (hd : st1 d = st2 d) :
    is_unchanged w st1 s d tol = is_unchanged w st2 s d tol := by
  rw [is_unchanged, is_unchanged, hs, hd, pathExists_congr w st1 st2 d hd]

theorem skipReady_congr (w : World) (st1 st2 : StatMap) (sd : String × String)
    (hs : st1 sd.1 = st2 sd.1) (hd : st1 sd.2 = st2 sd.2)
    (h : skipReady w st1 sd) : skipReady w st2 sd := by
  rcases h with ⟨h1, h2⟩
  exact ⟨by rw [← pathExists_congr w st1 st2 sd.2 hd]; exact h1,
         by rw [← is_unchanged_congr w st1 st2 sd.1 sd.2 1 hs hd]; exact h2⟩

/-- When every file of the list is `skipReady`, the incremental mirror loop
skips each of them: it writes one `SKIP:` line per file and leaves the stat
map, the error list and the copy list untouched. -/
theorem mirrorFiles_allskip (w : World) (db : String) (total : Nat)
    (files : List (String × String)) :
    ∀ st : MSt,
      (∀ pr ∈ files, skipReady w st.stat (pr.1, joinPath db pr.2)) →
      ∃ E, mirrorFiles (fun p => p) w true db none total files st =
        ({ stat := st.stat,
           lines := st.lines ++ files.map (fun pr => "SKIP: " ++ pr.1),
           errors := st.errors, done := st.done + files.length,
           events := st.events ++ E, copied := st.copied }, false) ∧
        (∀ e ∈ E, evOK total e) := by
  induction files with
  | nil => intro st _; exact ⟨[], by simp [mirrorFiles], by simp⟩
  | cons pr rest ih =>
    intro st hready
    obtain ⟨hex, hunch⟩ := hready pr (List.mem_cons_self pr rest)
    have hcond : (true && pathExists w st.stat (joinPath db pr.2) &&
        is_unchanged w st.stat pr.1 (joinPath db pr.2)) = true := by
      rw [hex, hunch]
      rfl
    have hstep : mirrorFile (fun p => p) w true db total st pr =
        (if progressCond total (st.done + 1) then
          { st with lines := st.lines ++ [mirrorSkipLine pr],
                    done := st.done + 1,
                    events := st.events ++ [.progress (st.done + 1) (max total 1)] }
         else
          { st with lines := st.lines ++ [mirrorSkipLine pr],
                    done := st.done + 1 }) := by
      simp only [mirrorFile, hcond, if_true]
    by_cases hpc : progressCond total (st.done + 1) = true
    · rw [if_pos hpc] at hstep
      obtain ⟨E, heq, hE⟩ := ih
        { st with lines := st.lines ++ [mirrorSkipLine pr], done := st.done + 1,
                  events := st.events ++ [.progress (st.done + 1) (max total 1)] }
        (by intro q hq; exact hready q (List.mem_cons_of_mem pr hq))
      refine ⟨.progress (st.done + 1) (max total 1) :: E, ?_, ?_⟩
      · rw [mirrorFiles, stopRead_none]
        simp only [Bool.false_eq_true, if_false]
        rw [hstep, heq]
        simp only [Prod.mk.injEq, MSt.mk.injEq, and_true, true_and,
          List.append_assoc, List.cons_append, List.singleton_append,
          List.nil_append, List.map_cons, List.length_cons, mirrorSkipLine]
        omega
      · intro e he
        rcases List.mem_cons.mp he with rfl | he2
        · exact Or.inr ⟨_, rfl⟩
        · exact hE e he2
    · rw [if_neg hpc] at hstep
      obtain ⟨E, heq, hE⟩ := ih
        { st with lines := st.lines ++ [mirrorSkipLine pr], done := st.done + 1 }
        (by intro q hq; exact hready q (List.mem_cons_of_mem pr hq))
      refine ⟨E, ?_, hE⟩
      rw [mirrorFiles, stopRead_none]
      simp only [Bool.false_eq_true, if_false]
      rw [hstep, heq]
      simp only [Prod.mk.injEq, MSt.mk.injEq, and_true, true_and,
        List.append_assoc, List.cons_append, List.singleton_append,
        List.nil_append, List.map_cons, List.length_cons, mirrorSkipLine]
      omega

/-- When every planned `(src, dest)` pair is `skipReady`, the incremental
mirror root loop skips every file: the log gains one `SKIP:` line per
enumerated file and the stat map, errors and copies are untouched. -/
theorem mirrorRoots_allskip (w : World) (total : Nat) (bd : String)
    (roots : List String) :
    ∀ st : MSt,
      (∀ sd ∈ mirrorPlan w bd roots, skipReady w st.stat sd) →
      ∃ E, mirrorRoots (fun p => p) w true none total bd roots st =
        ({ stat := st.stat,
           lines := st.lines ++ (mirrorPlan w bd roots).map
             (fun sd => "SKIP: " ++ sd.1),
           errors := st.errors, done := st.done + count_total_files w roots,
           events := st.events ++ E, copied := st.copied }, false) ∧
        (∀ e ∈ E, evOK total e) := by
  induction roots with
  | nil =>
    intro st _
    exact ⟨[], by simp [mirrorRoots, mirrorPlan, count_total_files], by simp⟩
  | cons root rest ih =>
    intro st hready
    have hreadyRoot : ∀ pr ∈ iter_files_under w root,
        skipReady w st.stat (pr.1, joinPath (joinPath bd (tagged_base_of root)) pr.2) := by
      intro pr hpr
      refine hready _ ?_
      rw [mirrorPlan, List.map_cons, List.flatten_cons]
      exact List.mem_append_left _
        (List.mem_map.mpr ⟨pr, hpr, rfl⟩)
    obtain ⟨E1, heq1, hE1⟩ :=
      mirrorFiles_allskip w (joinPath bd (tagged_base_of root)) total
        (iter_files_under w root)
        { st with events := st.events ++
            [.log ("Copying: " ++ root ++ " -> " ++ joinPath bd (tagged_base_of root))] }
        (by intro pr hpr; exact hreadyRoot pr hpr)
    obtain ⟨E, heq, hE⟩ := ih
      { stat := st.stat,
        lines := st.lines ++ (iter_files_under w root).map
          (fun pr => "SKIP: " ++ pr.1),
        errors := st.errors,
        done := st.done + (iter_files_under w root).length,
        events := (st.events ++
          [.log ("Copying: " ++ root ++ " -> " ++ joinPath bd (tagged_base_of root))]) ++ E1,
        copied := st.copied }
      (by intro sd hsd
          refine hready sd ?_
          rw [mirrorPlan, List.map_cons, List.flatten_cons]
          exact List.mem_append_right _ hsd)
    refine ⟨.log ("Copying: " ++ root ++ " -> " ++ joinPath bd (tagged_base_of root))
        :: (E1 ++ E), ?_, ?_⟩
    · simp only [mirrorRoots]
      rw [heq1]
      dsimp only
      rw [heq]
      simp only [Prod.mk.injEq, MSt.mk.injEq, and_true, true_and,
        List.append_assoc, List.cons_append, List.singleton_append,
        List.nil_append, count_total_files, List.map_cons, List.sum_cons,
        iter_files_under, mirrorPlan, mirrorPlanRoot, List.flatten_cons,
        List.map_append, List.map_map]
      refine ⟨?_, ?_⟩
      · simp [Function.comp_def]
      · omega
    · intro e he
      rcases List.mem_cons.mp he with rfl | he2
      · exact Or.inl ⟨_, rfl⟩
      · rcases List.mem_append.mp he2 with h | h
        · exact hE1 e h
        · exact hE e h

theorem mirrorFiles_none_snd (lp : String → String) (w : World) (inc : Bool)
    (db : String) (total : Nat) (files : List (String × String)) (st : MSt) :
    (mirrorFiles lp w inc db none total files st).2 = false := by
  obtain ⟨sm, Ls, er, cp, E, heq, -, -⟩ :=
    mirrorFiles_none_spec lp w inc db total files st
  rw [heq]

theorem mirrorFile_skip_stat (lp : String → String) (w : World) (inc : Bool)
    (db : String) (total : Nat) (st : MSt) (pr : String × String)
    (hsk : (inc && pathExists w st.stat (joinPath db pr.2) &&
      is_unchanged w st.stat pr.1 (joinPath db pr.2)) = true) :
    (mirrorFile lp w inc db total st pr).stat = st.stat := by
  simp only [mirrorFile, hsk, if_true]
  split <;> rfl

theorem mirrorFile_skip_errors (lp : String → String) (w : World) (inc : Bool)
    (db : String) (total : Nat) (st : MSt) (pr : String × String)
    (hsk : (inc && pathExists w st.stat (joinPath db pr.2) &&
      is_unchanged w st.stat pr.1 (joinPath db pr.2)) = true) :
    (mirrorFile lp w inc db total st pr).errors = st.errors := by
  simp only [mirrorFile, hsk, if_true]
  split <;> rfl

theorem mirrorFile_copy_stat (w : World) (inc : Bool)
    (db : String) (total : Nat) (st : MSt) (pr : String × String)
    (m : StatMap)
    (hsk : (inc && pathExists w st.stat (joinPath db pr.2) &&
      is_unchanged w st.stat pr.1 (joinPath db pr.2)) = false)
    (hm : copy2 w st.stat pr.1 (joinPath db pr.2) = some m) :
    (mirrorFile (fun p => p) w inc db total st pr).stat = m := by
  simp only [mirrorFile, hsk, Bool.false_eq_true, if_false, hm]
  split <;> rfl

theorem mirrorFile_copy_errors (w : World) (inc : Bool)
    (db : String) (total : Nat) (st : MSt) (pr : String × String)
    (m : StatMap)
    (hsk : (inc && pathExists w st.stat (joinPath db pr.2) &&
      is_unchanged w st.stat pr.1 (joinPath db pr.2)) = false)
    (hm : copy2 w st.stat pr.1 (joinPath db pr.2) = some m) :
    (mirrorFile (fun p => p) w inc db total st pr).errors = st.errors := by
  simp only [mirrorFile, hsk, Bool.false_eq_true, if_false, hm]
  split <;> rfl

/-- The first incremental-or-copy pass over readable, stat-able sources with
pairwise-distinct destinations that never collide with sources raises no
per-file error and leaves every processed pair ready to be skipped: the
destination exists and the change detector reports it unchanged. -/
theorem mirrorFiles_establishes (w : World) (inc : Bool) (db : String)
    (total : Nat) (files : List (String × String)) :
    ∀ st : MSt,
      (∀ pr ∈ files, (st.stat pr.1).isSome ∧ w.readable pr.1 = true) →
      (∀ pr ∈ files, ∀ pq ∈ files, joinPath db pr.2 ≠ pq.1) →
      files.Pairwise (fun a b => joinPath db a.2 ≠ joinPath db b.2) →
      (mirrorFiles (fun p => p) w inc db none total files st).1.errors
          = st.errors ∧
      (∀ p : String, (∀ pr ∈ files, p ≠ joinPath db pr.2) →
        (mirrorFiles (fun p => p) w inc db none total files st).1.stat p
          = st.stat p) ∧
      (∀ pr ∈ files,
        skipReady w (mirrorFiles (fun p => p) w inc db none total files st).1.stat
          (pr.1, joinPath db pr.2)) := by
  induction files with
  | nil =>
    intro st _ _ _
    refine ⟨rfl, fun p _ => rfl, ?_⟩
    intro pr hpr
    cases hpr
  | cons pr rest ih =>
    intro st hsrc hdisj hdd
    obtain ⟨hsome, hread⟩ := hsrc pr (List.mem_cons_self pr rest)
    obtain ⟨a, ha⟩ := Option.isSome_iff_exists.mp hsome
    have hdest_ne_src : ∀ pq ∈ pr :: rest, joinPath db pr.2 ≠ pq.1 :=
      hdisj pr (List.mem_cons_self pr rest)
    have hself : joinPath db pr.2 ≠ pr.1 :=
      hdest_ne_src pr (List.mem_cons_self pr rest)
    have hrest_dest_ne : ∀ q ∈ rest, joinPath db q.2 ≠ joinPath db pr.2 := by
      intro q hq
      exact fun h => ((List.pairwise_cons.mp hdd).1 q hq) h.symm
    have hsrc_ne_restdest : ∀ q ∈ rest, pr.1 ≠ joinPath db q.2 := by
      intro q hq h
      exact (hdisj q (List.mem_cons_of_mem pr hq) pr
        (List.mem_cons_self pr rest)) h.symm
    rw [mirrorFiles, stopRead_none]
    simp only [Bool.false_eq_true, if_false]
    by_cases hsk : (inc && pathExists w st.stat (joinPath db pr.2) &&
        is_unchanged w st.stat pr.1 (joinPath db pr.2)) = true
    · -- this pair is skipped: the state's stat is unchanged
      have hstat1 := mirrorFile_skip_stat (fun p => p) w inc db total st pr hsk
      have herr1 := mirrorFile_skip_errors (fun p => p) w inc db total st pr hsk
      obtain ⟨hE, hFr, hQ⟩ := ih (mirrorFile (fun p => p) w inc db total st pr)
        (by intro q hq
            rw [hstat1]
            exact hsrc q (List.mem_cons_of_mem pr hq))
        (by intro q hq pq hpq
            exact hdisj q (List.mem_cons_of_mem pr hq) pq
              (List.mem_cons_of_mem pr hpq))
        (List.pairwise_cons.mp hdd).2
      refine ⟨by rw [hE, herr1], ?_, ?_⟩
      · intro p hp
        rw [hFr p (fun q hq => hp q (List.mem_cons_of_mem pr hq)), hstat1]
      · intro q hq
        rcases List.mem_cons.mp hq with rfl | hq2
        · -- the head pair: skipReady held before and the stat at its two
          -- paths is untouched by the rest of the pass
          have hsk2 : pathExists w st.stat (joinPath db q.2) = true ∧
              is_unchanged w st.stat q.1 (joinPath db q.2) = true := by
            simp only [Bool.and_eq_true] at hsk
            exact ⟨hsk.1.2, hsk.2⟩
          refine skipReady_congr w st.stat _ (q.1, joinPath db q.2) ?_ ?_ hsk2
          · rw [hFr q.1 (fun q2 hq2 => hsrc_ne_restdest q2 hq2), hstat1]
          · rw [hFr (joinPath db q.2)
              (fun q2 hq2 => fun h => (hrest_dest_ne q2 hq2) h.symm), hstat1]
        · exact hQ q hq2
    · -- this pair is copied: its destination now carries the source's stat
      have hm : copy2 w st.stat pr.1 (joinPath db pr.2)
          = some (fun p => if p = joinPath db pr.2 then some a else st.stat p) := by
        rw [copy2, file_op_ok, hread, ha]
        rfl
      have hstat1 := mirrorFile_copy_stat w inc db total st pr _
        (by rw [Bool.not_eq_true] at hsk; exact hsk) hm
      have herr1 := mirrorFile_copy_errors w inc db total st pr _
        (by rw [Bool.not_eq_true] at hsk; exact hsk) hm
      obtain ⟨hE, hFr, hQ⟩ := ih (mirrorFile (fun p => p) w inc db total st pr)
        (by intro q hq
            rw [hstat1]
            have hne : q.1 ≠ joinPath db pr.2 :=
              fun h => (hdest_ne_src q (List.mem_cons_of_mem pr hq)) h.symm
            simp only [hne, if_false]
            exact hsrc q (List.mem_cons_of_mem pr hq))
        (by intro q hq pq hpq
            exact hdisj q (List.mem_cons_of_mem pr hq) pq
              (List.mem_cons_of_mem pr hpq))
        (List.pairwise_cons.mp hdd).2
      refine ⟨by rw [hE, herr1], ?_, ?_⟩
      · intro p hp
        rw [hFr p (fun q hq => hp q (List.mem_cons_of_mem pr hq)), hstat1]
        have hpne : p ≠ joinPath db pr.2 := hp pr (List.mem_cons_self pr rest)
        simp [hpne]
      · intro q hq
        rcases List.mem_cons.mp hq with rfl | hq2
        · have hsD : (mirrorFiles (fun p => p) w inc db none total rest
              (mirrorFile (fun p => p) w inc db total st q)).1.stat
              (joinPath db q.2) = some a := by
            rw [hFr (joinPath db q.2)
              (fun q2 hq2 => fun h => (hrest_dest_ne q2 hq2) h.symm), hstat1]
            simp
          have hsS : (mirrorFiles (fun p => p) w inc db none total rest
              (mirrorFile (fun p => p) w inc db total st q)).1.stat q.1
              = some a := by
            rw [hFr q.1 (fun q2 hq2 => hsrc_ne_restdest q2 hq2), hstat1]
            have hne : ¬ (q.1 = joinPath db q.2) := fun h => hself h.symm
            simp only [hne, if_false]
            exact ha
          refine ⟨?_, ?_⟩
          · simp [pathExists, hsD]
          · exact (is_unchanged_eq_true_iff w _ q.1 (joinPath db q.2) 1 a a
              hsS hsD).mpr ⟨rfl, by simp⟩
        · exact hQ q hq2

/-- Root-level version of `mirrorFiles_establishes`: after a first mirror
pass over a plan whose sources are readable and stat-able, whose
destinations are pairwise distinct and never collide with any source,
`self.errors` is unchanged, stats outside the planned destinations are
untouched, and every planned pair is `skipReady`. -/
theorem mirrorRoots_establishes (w : World) (inc : Bool) (total : Nat)
    (bd : String) (roots : List String) :
    ∀ st : MSt,
      (∀ sd ∈ mirrorPlan w bd roots,
        (st.stat sd.1).isSome ∧ w.readable sd.1 = true) →
      (∀ sd ∈ mirrorPlan w bd roots, ∀ sq ∈ mirrorPlan w bd roots,
        sd.2 ≠ sq.1) →
      (mirrorPlan w bd roots).Pairwise (fun a b => a.2 ≠ b.2) →
      (mirrorRoots (fun p => p) w inc none total bd roots st).1.errors
          = st.errors ∧
      (∀ p : String, (∀ sd ∈ mirrorPlan w bd roots, p ≠ sd.2) →
        (mirrorRoots (fun p => p) w inc none total bd roots st).1.stat p
          = st.stat p) ∧
      (∀ sd ∈ mirrorPlan w bd roots,
        skipReady w (mirrorRoots (fun p => p) w inc none total bd roots st).1.stat
          sd) := by
  induction roots with
  | nil =>
    intro st _ _ _
    refine ⟨rfl, fun p _ => rfl, ?_⟩
    intro sd hsd
    simp [mirrorPlan] at hsd
  | cons root rest ih =>
    intro st hsrc hdisj hdd
    have hplan : mirrorPlan w bd (root :: rest)
        = mirrorPlanRoot w bd root ++ mirrorPlan w bd rest := by
      rw [mirrorPlan, List.map_cons, List.flatten_cons]
      rfl
    rw [hplan] at hsrc hdisj hdd
    have hmemRoot : ∀ pr ∈ iter_files_under w root,
        (pr.1, joinPath (joinPath bd (tagged_base_of root)) pr.2)
          ∈ mirrorPlanRoot w bd root := by
      intro pr hpr
      exact List.mem_map.mpr ⟨pr, hpr, rfl⟩
    -- the per-file pass over this root
    have hEst := mirrorFiles_establishes w inc
      (joinPath bd (tagged_base_of root)) total (iter_files_under w root)
      { st with events := st.events ++
          [.log ("Copying: " ++ root ++ " -> " ++ joinPath bd (tagged_base_of root))] }
      (by intro pr hpr
          exact hsrc (pr.1, joinPath (joinPath bd (tagged_base_of root)) pr.2)
            (List.mem_append_left _ (hmemRoot pr hpr)))
      (by intro pr hpr pq hpq
          exact hdisj
            (pr.1, joinPath (joinPath bd (tagged_base_of root)) pr.2)
            (List.mem_append_left _ (hmemRoot pr hpr))
            (pq.1, joinPath (joinPath bd (tagged_base_of root)) pq.2)
            (List.mem_append_left _ (hmemRoot pq hpq)))
      (by
        have h1 := (List.pairwise_append.mp hdd).1
        rw [mirrorPlanRoot, List.pairwise_map] at h1
        exact h1)
    obtain ⟨sm1, Ls1, er1, cp1, E1, heq1, -, -⟩ :=
      mirrorFiles_none_spec (fun p => p) w inc
        (joinPath bd (tagged_base_of root)) total (iter_files_under w root)
        { st with events := st.events ++
            [.log ("Copying: " ++ root ++ " -> " ++ joinPath bd (tagged_base_of root))] }
    rw [heq1] at hEst
    dsimp only at hEst
    obtain ⟨hE1, hFr1, hQ1⟩ := hEst
    -- the recursive pass over the remaining roots, from the updated stat
    have hrest_src : ∀ sd ∈ mirrorPlan w bd rest,
        (sm1 sd.1).isSome ∧ w.readable sd.1 = true := by
      intro sd hsd
      have hfr := hFr1 sd.1 (by
        intro pr hpr
        exact fun h =>
          (hdisj _ (List.mem_append_left _ (hmemRoot pr hpr))
            _ (List.mem_append_right _ hsd)) h.symm)
      rw [hfr]
      exact hsrc _ (List.mem_append_right _ hsd)
    simp only [mirrorRoots]
    rw [heq1]
    dsimp only
    obtain ⟨hE, hFr, hQ⟩ := ih
      { stat := sm1, lines := st.lines ++ Ls1, errors := st.errors ++ er1,
        done := st.done + (iter_files_under w root).length,
        events := (st.events ++
          [.log ("Copying: " ++ root ++ " -> " ++ joinPath bd (tagged_base_of root))]) ++ E1,
        copied := st.copied ++ cp1 }
      (by intro sd hsd
          exact hrest_src sd hsd)
      (by intro sd hsd sq hsq
          exact hdisj _ (List.mem_append_right _ hsd)
            _ (List.mem_append_right _ hsq))
      (List.pairwise_append.mp hdd).2.1
    dsimp only at hE hFr hQ
    refine ⟨?_, ?_, ?_⟩
    · rw [hE, hE1]
    · intro p hp
      rw [hplan] at hp
      rw [hFr p (fun sd hsd => hp sd (List.mem_append_right _ hsd))]
      refine hFr1 p ?_
      intro pr hpr
      exact hp _ (List.mem_append_left _ (hmemRoot pr hpr))
    · intro sd hsd
      rw [hplan] at hsd
      rcases List.mem_append.mp hsd with hsd1 | hsd2
      · -- a pair of this root: skipReady after this root's pass, preserved
        -- by the later roots whose destinations are all different
        obtain ⟨pr, hpr, rfl⟩ := List.mem_map.mp hsd1
        have hq1 := hQ1 pr hpr
        refine skipReady_congr w sm1 _ _ ?_ ?_ hq1
        · exact (hFr pr.1 (by
            intro sq hsq
            exact fun h =>
              (hdisj _ (List.mem_append_right _ hsq)
                _ (List.mem_append_left _ (hmemRoot pr hpr))) h.symm)).symm
        · exact (hFr (joinPath (joinPath bd (tagged_base_of root)) pr.2) (by
            intro sq hsq
            have := (List.pairwise_append.mp hdd).2.2
              _ (hmemRoot pr hpr) sq hsq
            exact fun h => this h)).symm
      · exact hQ sd hsd2

/-- Fields of a completed (uncancelled, non-fatal) mirror run, in terms of
the root-loop result. -/
theorem engineRun_mirror_none_fields (lp : String → String) (env : Env)
    (w : World) (stat0 : StatMap) (bw : BackupWorker)
    (hzm : bw.zip_mode = false)
    (hnf : w.createFails (mk_backup_target env bw.dest_root false) = false)
    (hnf2 : w.createFails (joinPath (mk_backup_target env bw.dest_root false)
      "backup_log.txt") = false) :
    (engineRun lp env w stat0 bw none).errors =
      (mirrorRoots lp w bw.incremental none
        (count_total_files w (existingSources w bw))
        (mk_backup_target env bw.dest_root false) (existingSources w bw)
        ⟨stat0, [], [], 0,
          ((missingSources w bw).map fun m =>
            Event.log ("[WARN] Source not found or unset (skipping): " ++ m)) ++
            [Event.progress 0 (max (count_total_files w (existingSources w bw)) 1)] ++
            [Event.log ("Mirror mode: " ++ mk_backup_target env bw.dest_root false)],
          []⟩).1.errors ∧
    (engineRun lp env w stat0 bw none).stat =
      (mirrorRoots lp w bw.incremental none
        (count_total_files w (existingSources w bw))
        (mk_backup_target env bw.dest_root false) (existingSources w bw)
        ⟨stat0, [], [], 0,
          ((missingSources w bw).map fun m =>
            Event.log ("[WARN] Source not found or unset (skipping): " ++ m)) ++
            [Event.progress 0 (max (count_total_files w (existingSources w bw)) 1)] ++
            [Event.log ("Mirror mode: " ++ mk_backup_target env bw.dest_root false)],
          []⟩).1.stat ∧
    (engineRun lp env w stat0 bw none).mirrorLog =
      some (mirrorHeader env (mk_backup_target env bw.dest_root false)
        bw.incremental ++
        (mirrorRoots lp w bw.incremental none
          (count_total_files w (existingSources w bw))
          (mk_backup_target env bw.dest_root false) (existingSources w bw)
          ⟨stat0, [], [], 0,
            ((missingSources w bw).map fun m =>
              Event.log ("[WARN] Source not found or unset (skipping): " ++ m)) ++
              [Event.progress 0 (max (count_total_files w (existingSources w bw)) 1)] ++
              [Event.log ("Mirror mode: " ++ mk_backup_target env bw.dest_root false)],
            []⟩).1.lines) := by
  simp only [engineRun, hzm, Bool.false_eq_true, if_false, hnf, hnf2]
  obtain ⟨sm, Ls, er, cp, E, heq, -, -⟩ :=
    mirrorRoots_none_spec lp w bw.incremental
      (count_total_files w (existingSources w bw))
      (mk_backup_target env bw.dest_root false) (existingSources w bw)
      ⟨stat0, [], [], 0,
        ((missingSources w bw).map fun m =>
          Event.log ("[WARN] Source not found or unset (skipping): " ++ m)) ++
          [Event.progress 0 (max (count_total_files w (existingSources w bw)) 1)] ++
          [Event.log ("Mirror mode: " ++ mk_backup_target env bw.dest_root false)],
        []⟩
  rw [heq]
  dsimp only
  exact ⟨rfl, rfl, rfl⟩

/-- On a non-Windows host `win_longpath` is the identity. -/
theorem win_longpath_id (env : Env) (hwin : env.is_win32 = false) :
    Windows.win_longpath env = fun p => p := by
  funext p
  rw [Windows.win_longpath, hwin]
  simp

/-- C1 counterexample: two successive mirror+incremental runs over an
unchanged source normally have *different* timestamps, so the second run
targets a fresh directory and re-COPIES every file instead of skipping:
its log contains a COPY line and no SKIP line. -/
theorem C1_fresh_timestamp_run_recopies :
    (WorkerPy.run envT2 wOne (WorkerPy.run envT1 wOne stOne bwMirror none).stat
        bwMirror none).mirrorLog =
      some [ "Elite Dangerous Backup Log (Mirror) - I2"
           , "Destination: d/EliteDangerousBackup_PC_T2"
           , "Incremental: ON"
           , ""
           , "COPY: s/a -> d/EliteDangerousBackup_PC_T2/s/a" ] ∧
    (WorkerPy.run envT1 wOne stOne bwMirror none).mirrorLog =
      some [ "Elite Dangerous Backup Log (Mirror) - I1"
           , "Destination: d/EliteDangerousBackup_PC_T1"
           , "Incremental: ON"
           , ""
           , "COPY: s/a -> d/EliteDangerousBackup_PC_T1/s/a" ] :=
  ⟨by rfl, by rfl⟩

/-- C1 (amended): if the second mirror+incremental run computes the *same*
backup target as the first (same machine name and same second-resolution
timestamp — the only case in which the incremental check can see the first
run's output), then over an unchanged source tree whose planned
destinations are pairwise distinct and disjoint from the sources, the first
run copies without error and the second run's `backup_log.txt` consists of
the header plus exactly one `SKIP:` line per enumerated file, with an empty
error list.  With a fresh timestamp the second run re-copies everything
(see the counterexample). -/
theorem C1_second_run_same_timestamp_all_skips (env : Env) (w : World)
    (stat0 : StatMap) (bw : BackupWorker)
    (hwin : env.is_win32 = false)
    (hzm : bw.zip_mode = false)
    (hinc : bw.incremental = true)
    (hnf : w.createFails (mk_backup_target env bw.dest_root false) = false)
    (hnf2 : w.createFails (joinPath (mk_backup_target env bw.dest_root false)
      "backup_log.txt") = false)
    (hsrcs : ∀ sd ∈ mirrorPlan w (mk_backup_target env bw.dest_root false)
        (existingSources w bw),
      (stat0 sd.1).isSome ∧ w.readable sd.1 = true)
    (hdisj : ∀ sd ∈ mirrorPlan w (mk_backup_target env bw.dest_root false)
        (existingSources w bw),
      ∀ sq ∈ mirrorPlan w (mk_backup_target env bw.dest_root false)
        (existingSources w bw), sd.2 ≠ sq.1)
    (hdd : (mirrorPlan w (mk_backup_target env bw.dest_root false)
        (existingSources w bw)).Pairwise (fun a b => a.2 ≠ b.2)) :
    (WorkerPy.run env w stat0 bw none).errors = [] ∧
    (WorkerPy.run env w (WorkerPy.run env w stat0 bw none).stat bw none).errors
        = [] ∧
    (WorkerPy.run env w (WorkerPy.run env w stat0 bw none).stat bw none).mirrorLog
        = some (mirrorHeader env (mk_backup_target env bw.dest_root false)
            bw.incremental ++
          (mirrorPlan w (mk_backup_target env bw.dest_root false)
            (existingSources w bw)).map (fun sd => "SKIP: " ++ sd.1)) := by
  have hlp := win_longpath_id env hwin
  simp only [WorkerPy.run, hlp]
  obtain ⟨hErr1, hFr1, hQ1⟩ := mirrorRoots_establishes w bw.incremental
    (count_total_files w (existingSources w bw))
    (mk_backup_target env bw.dest_root false) (existingSources w bw)
    ⟨stat0, [], [], 0,
      ((missingSources w bw).map fun m =>
        Event.log ("[WARN] Source not found or unset (skipping): " ++ m)) ++
        [Event.progress 0 (max (count_total_files w (existingSources w bw)) 1)] ++
        [Event.log ("Mirror mode: " ++ mk_backup_target env bw.dest_root false)],
      []⟩ hsrcs hdisj hdd
  have hf1 := engineRun_mirror_none_fields (fun p => p) env w stat0 bw hzm hnf hnf2
  have hf2 := engineRun_mirror_none_fields (fun p => p) env w
    ((engineRun (fun p => p) env w stat0 bw none).stat) bw hzm hnf hnf2
  obtain ⟨E2, heq2, -⟩ := mirrorRoots_allskip w
    (count_total_files w (existingSources w bw))
    (mk_backup_target env bw.dest_root false) (existingSources w bw)
    ⟨(engineRun (fun p => p) env w stat0 bw none).stat, [], [], 0,
      ((missingSources w bw).map fun m =>
        Event.log ("[WARN] Source not found or unset (skipping): " ++ m)) ++
        [Event.progress 0 (max (count_total_files w (existingSources w bw)) 1)] ++
        [Event.log ("Mirror mode: " ++ mk_backup_target env bw.dest_root false)],
      []⟩
    (by intro sd hsd
        show skipReady w (engineRun (fun p => p) env w stat0 bw none).stat sd
        rw [hf1.2.1]
        exact hQ1 sd hsd)
  refine ⟨?_, ?_, ?_⟩
  · rw [hf1.1, hErr1]
  · rw [hf2.1, hinc, heq2]
  · rw [hf2.2.2, hinc, heq2]
    dsimp only
    simp

/-- Witness for C1's amended theorem: on the one-file world, reusing the
first run's stats under the same timestamp makes the second run log exactly
the header followed by a single SKIP line. -/
theorem C1_second_run_same_timestamp_all_skips_witness :
    (WorkerPy.run envT1 wOne (WorkerPy.run envT1 wOne stOne bwMirror none).stat
        bwMirror none).mirrorLog
      = some (mirrorHeader envT1 (mk_backup_target envT1 bwMirror.dest_root false)
          bwMirror.incremental ++
        (mirrorPlan wOne (mk_backup_target envT1 bwMirror.dest_root false)
          (existingSources wOne bwMirror)).map (fun sd => "SKIP: " ++ sd.1)) :=
  (C1_second_run_same_timestamp_all_skips envT1 wOne stOne bwMirror rfl rfl rfl
    rfl rfl (by decide) (by decide) (by decide)).2.2

/-- Witness for C2's amended theorem: cancelling the two-file zip run after
one file leaves `filesProcessed = 1`. -/
theorem C2_cancellation_after_K_files_witness :
    (WorkerPy.run envT1 wTwo stTwo bwZip (some 1)).filesProcessed = 1 :=
  (C2_cancellation_after_K_files envT1 wTwo stTwo bwZip 1 (by decide) (by decide)
    rfl (by intro h; exact absurd h (by decide))).2.1

set_option maxRecDepth 40000 in
/-- C9 counterexample: off Windows, the worker embedded in src/main.py
mangles a 240-character source path (its `win_longpath` lacks the platform
guard of src/windows.py), so the same mirror run reports an error that the
src/backup/worker.py worker does not. -/
theorem C9_duplicate_worker_diverges_off_windows :
    (WorkerPy.run envT1 wLong stLong bwMirror none).errors = [] ∧
    (MainPy.run envT1 wLong stLong bwMirror none).errors ≠ [] :=
  ⟨by rfl, by decide⟩

/-- C9 (amended): on Windows (`sys.platform == "win32"`), the two embedded
workers are extensionally identical — the only textual difference between
the copies is which `win_longpath` is in scope, and on Windows the two
helpers agree. -/
theorem C9_workers_agree_on_windows (env : Env) (w : World) (stat0 : StatMap)
    (bw : BackupWorker) (stopAt : Option Nat) (hwin : env.is_win32 = true) :
    WorkerPy.run env w stat0 bw stopAt = MainPy.run env w stat0 bw stopAt := by
  have h : Windows.win_longpath env = MainPy.win_longpath env := by
    funext p
    simp only [Windows.win_longpath, MainPy.win_longpath, hwin]
    simp
  rw [WorkerPy.run, MainPy.run, h]

/-- Witness for C9's amended theorem on a concrete Windows environment. -/
theorem C9_workers_agree_on_windows_witness :
    WorkerPy.run envWin wOne stOne bwMirror none
      = MainPy.run envWin wOne stOne bwMirror none :=
  C9_workers_agree_on_windows envWin wOne stOne bwMirror none rfl

theorem mirrorFile_err_stat (w : World) (inc : Bool) (db : String)
    (total : Nat) (st : MSt) (pr : String × String)
    (hsk : (inc && pathExists w st.stat (joinPath db pr.2) &&
      is_unchanged w st.stat pr.1 (joinPath db pr.2)) = false)
    (hm : copy2 w st.stat pr.1 (joinPath db pr.2) = none) :
    (mirrorFile (fun p => p) w inc db total st pr).stat = st.stat := by
  simp only [mirrorFile, hsk, Bool.false_eq_true, if_false, hm]
  split <;> rfl

theorem mirrorFile_err_errors (w : World) (inc : Bool) (db : String)
    (total : Nat) (st : MSt) (pr : String × String)
    (hsk : (inc && pathExists w st.stat (joinPath db pr.2) &&
      is_unchanged w st.stat pr.1 (joinPath db pr.2)) = false)
    (hm : copy2 w st.stat pr.1 (joinPath db pr.2) = none) :
    (mirrorFile (fun p => p) w inc db total st pr).errors
      = st.errors ++ [mirrorErrLine db pr] := by
  simp only [mirrorFile, hsk, Bool.false_eq_true, if_false, hm]
  split <;> rfl

/-- Mixed-outcome pass of the per-file mirror loop over fresh destinations:
each unreadable or un-stat-able source contributes exactly one error line
and nothing else, each good source's stat is transferred to its
destination, stats elsewhere are untouched, and the loop always reaches the
end of the list. -/
theorem mirrorFiles_mixed (w : World) (inc : Bool) (db : String)
    (total : Nat) (files : List (String × String)) :
    ∀ st : MSt,
      (∀ pr ∈ files, w.isdir (joinPath db pr.2) = false ∧
        st.stat (joinPath db pr.2) = none) →
      (∀ pr ∈ files, ∀ pq ∈ files, joinPath db pr.2 ≠ pq.1) →
      files.Pairwise (fun a b => joinPath db a.2 ≠ joinPath db b.2) →
      (mirrorFiles (fun p => p) w inc db none total files st).1.errors
          = st.errors ++ (files.filter
              (fun pr => !file_op_ok w st.stat pr.1)).map
            (fun pr => mirrorErrLine db pr) ∧
      (∀ p : String, (∀ pr ∈ files, p ≠ joinPath db pr.2) →
        (mirrorFiles (fun p => p) w inc db none total files st).1.stat p
          = st.stat p) ∧
      (∀ pr ∈ files, file_op_ok w st.stat pr.1 = true →
        (mirrorFiles (fun p => p) w inc db none total files st).1.stat
          (joinPath db pr.2) = st.stat pr.1) := by
  induction files with
  | nil =>
    intro st _ _ _
    refine ⟨by simp [mirrorFiles], fun p _ => rfl, ?_⟩
    intro pr hpr
    cases hpr
  | cons pr rest ih =>
    intro st hfresh hdisj hdd
    obtain ⟨hdir, hnone⟩ := hfresh pr (List.mem_cons_self pr rest)
    have hpe : pathExists w st.stat (joinPath db pr.2) = false := by
      simp [pathExists, hdir, hnone]
    have hsk : (inc && pathExists w st.stat (joinPath db pr.2) &&
        is_unchanged w st.stat pr.1 (joinPath db pr.2)) = false := by
      simp [hpe]
    have hdest_ne_src : ∀ pq ∈ pr :: rest, joinPath db pr.2 ≠ pq.1 :=
      hdisj pr (List.mem_cons_self pr rest)
    have hrest_dest_ne : ∀ q ∈ rest, joinPath db q.2 ≠ joinPath db pr.2 := by
      intro q hq
      exact fun h => ((List.pairwise_cons.mp hdd).1 q hq) h.symm
    rw [mirrorFiles, stopRead_none]
    simp only [Bool.false_eq_true, if_false]
    by_cases hok : file_op_ok w st.stat pr.1 = true
    · -- the head file is copied successfully
      have h' := hok
      rw [file_op_ok, Bool.and_eq_true] at h'
      obtain ⟨a, ha⟩ := Option.isSome_iff_exists.mp h'.2
      have hm : copy2 w st.stat pr.1 (joinPath db pr.2)
          = some (fun p => if p = joinPath db pr.2 then some a else st.stat p) := by
        rw [copy2, file_op_ok, h'.1, ha]
        rfl
      have hstat1 := mirrorFile_copy_stat w inc db total st pr _ hsk hm
      have herr1 := mirrorFile_copy_errors w inc db total st pr _ hsk hm
      have hstatval : ∀ q ∈ rest,
          (mirrorFile (fun p => p) w inc db total st pr).stat q.1
            = st.stat q.1 := by
        intro q hq
        rw [hstat1]
        have hne : q.1 ≠ joinPath db pr.2 :=
          fun h => (hdest_ne_src q (List.mem_cons_of_mem pr hq)) h.symm
        simp [hne]
      have hokcongr : ∀ q ∈ rest,
          file_op_ok w (mirrorFile (fun p => p) w inc db total st pr).stat q.1
            = file_op_ok w st.stat q.1 := by
        intro q hq
        rw [file_op_ok, file_op_ok, hstatval q hq]
      obtain ⟨hE, hFr, hT⟩ := ih (mirrorFile (fun p => p) w inc db total st pr)
        (by intro q hq
            refine ⟨(hfresh q (List.mem_cons_of_mem pr hq)).1, ?_⟩
            rw [hstat1]
            have hne : joinPath db q.2 ≠ joinPath db pr.2 := hrest_dest_ne q hq
            simp only [hne, if_false]
            exact (hfresh q (List.mem_cons_of_mem pr hq)).2)
        (by intro q hq pq hpq
            exact hdisj q (List.mem_cons_of_mem pr hq) pq
              (List.mem_cons_of_mem pr hpq))
        (List.pairwise_cons.mp hdd).2
      refine ⟨?_, ?_, ?_⟩
      · rw [hE, herr1,
          List.filter_congr (fun q hq => by rw [hokcongr q hq]),
          List.filter_cons]
        simp [hok]
      · intro p hp
        rw [hFr p (fun q hq => hp q (List.mem_cons_of_mem pr hq)), hstat1]
        have hpne : p ≠ joinPath db pr.2 := hp pr (List.mem_cons_self pr rest)
        simp [hpne]
      · intro q hq hqok
        rcases List.mem_cons.mp hq with rfl | hq2
        · rw [hFr (joinPath db q.2)
              (fun q2 hq2 => fun h => (hrest_dest_ne q2 hq2) h.symm), hstat1]
          simp [ha]
        · rw [hT q hq2 (by rw [hokcongr q hq2]; exact hqok), hstatval q hq2]
    · -- the head file fails: one error line, stat untouched
      have hok' : file_op_ok w st.stat pr.1 = false := by
        rw [← Bool.not_eq_true]
        exact hok
      have hm : copy2 w st.stat pr.1 (joinPath db pr.2) = none := by
        rw [copy2, hok']
        rfl
      have hstat1 := mirrorFile_err_stat w inc db total st pr hsk hm
      have herr1 := mirrorFile_err_errors w inc db total st pr hsk hm
      have hstatval : ∀ q ∈ rest,
          (mirrorFile (fun p => p) w inc db total st pr).stat q.1
            = st.stat q.1 := by
        intro q hq
        rw [hstat1]
      have hokcongr : ∀ q ∈ rest,
          file_op_ok w (mirrorFile (fun p => p) w inc db total st pr).stat q.1
            = file_op_ok w st.stat q.1 := by
        intro q hq
        rw [hstat1]
      obtain ⟨hE, hFr, hT⟩ := ih (mirrorFile (fun p => p) w inc db total st pr)
        (by intro q hq
            refine ⟨(hfresh q (List.mem_cons_of_mem pr hq)).1, ?_⟩
            rw [hstat1]
            exact (hfresh q (List.mem_cons_of_mem pr hq)).2)
        (by intro q hq pq hpq
            exact hdisj q (List.mem_cons_of_mem pr hq) pq
              (List.mem_cons_of_mem pr hpq))
        (List.pairwise_cons.mp hdd).2
      refine ⟨?_, ?_, ?_⟩
      · rw [hE, herr1,
          List.filter_congr (fun q hq => by rw [hokcongr q hq]),
          List.filter_cons]
        simp [hok', List.append_assoc]
      · intro p hp
        rw [hFr p (fun q hq => hp q (List.mem_cons_of_mem pr hq)), hstat1]
      · intro q hq hqok
        rcases List.mem_cons.mp hq with rfl | hq2
        · rw [hqok] at hok'
          simp at hok'
        · rw [hT q hq2 (by rw [hokcongr q hq2]; exact hqok), hstatval q hq2]

/-- Root-level version of `mirrorFiles_mixed`: over a plan with fresh,
pairwise-distinct destinations disjoint from the sources, a completed mirror
pass reports exactly one error line per failing source (in plan order),
transfers every good source's stat to its destination, and leaves stats
outside the planned destinations untouched. -/
theorem mirrorRoots_mixed (w : World) (inc : Bool) (total : Nat)
    (bd : String) (roots : List String) :
    ∀ st : MSt,
      (∀ sd ∈ mirrorPlan w bd roots, w.isdir sd.2 = false ∧
        st.stat sd.2 = none) →
      (∀ sd ∈ mirrorPlan w bd roots, ∀ sq ∈ mirrorPlan w bd roots,
        sd.2 ≠ sq.1) →
      (mirrorPlan w bd roots).Pairwise (fun a b => a.2 ≠ b.2) →
      (mirrorRoots (fun p => p) w inc none total bd roots st).1.errors
          = st.errors ++ ((mirrorPlan w bd roots).filter
              (fun sd => !file_op_ok w st.stat sd.1)).map mirrorErrLineOf ∧
      (∀ p : String, (∀ sd ∈ mirrorPlan w bd roots, p ≠ sd.2) →
        (mirrorRoots (fun p => p) w inc none total bd roots st).1.stat p
          = st.stat p) ∧
      (∀ sd ∈ mirrorPlan w bd roots, file_op_ok w st.stat sd.1 = true →
        (mirrorRoots (fun p => p) w inc none total bd roots st).1.stat sd.2
          = st.stat sd.1) := by
  induction roots with
  | nil =>
    intro st _ _ _
    refine ⟨by simp [mirrorRoots, mirrorPlan], fun p _ => rfl, ?_⟩
    intro sd hsd
    simp [mirrorPlan] at hsd
  | cons root rest ih =>
    intro st hfresh hdisj hdd
    have hplan : mirrorPlan w bd (root :: rest)
        = mirrorPlanRoot w bd root ++ mirrorPlan w bd rest := by
      rw [mirrorPlan, List.map_cons, List.flatten_cons]
      rfl
    rw [hplan] at hfresh hdisj hdd ⊢
    have hmemRoot : ∀ pr ∈ iter_files_under w root,
        (pr.1, joinPath (joinPath bd (tagged_base_of root)) pr.2)
          ∈ mirrorPlanRoot w bd root := by
      intro pr hpr
      exact List.mem_map.mpr ⟨pr, hpr, rfl⟩
    have hMix := mirrorFiles_mixed w inc (joinPath bd (tagged_base_of root)) total
      (iter_files_under w root)
      { st with events := st.events ++
          [.log ("Copying: " ++ root ++ " -> " ++ joinPath bd (tagged_base_of root))] }
      (by intro pr hpr
          exact hfresh _ (List.mem_append_left _ (hmemRoot pr hpr)))
      (by intro pr hpr pq hpq
          exact hdisj
            (pr.1, joinPath (joinPath bd (tagged_base_of root)) pr.2)
            (List.mem_append_left _ (hmemRoot pr hpr))
            (pq.1, joinPath (joinPath bd (tagged_base_of root)) pq.2)
            (List.mem_append_left _ (hmemRoot pq hpq)))
      (by
        have h1 := (List.pairwise_append.mp hdd).1
        rw [mirrorPlanRoot, List.pairwise_map] at h1
        exact h1)
    rcases hsp : mirrorFiles (fun p => p) w inc (joinPath bd (tagged_base_of root))
        none total (iter_files_under w root)
        { st with events := st.events ++
            [.log ("Copying: " ++ root ++ " -> " ++ joinPath bd (tagged_base_of root))] }
      with ⟨st2, b⟩
    have hb := mirrorFiles_none_snd (fun p => p) w inc
      (joinPath bd (tagged_base_of root)) total (iter_files_under w root)
      { st with events := st.events ++
          [.log ("Copying: " ++ root ++ " -> " ++ joinPath bd (tagged_base_of root))] }
    rw [hsp] at hb
    dsimp only at hb
    subst hb
    rw [hsp] at hMix
    dsimp only at hMix
    obtain ⟨hE1, hFr1, hT1⟩ := hMix
    simp only [mirrorRoots]
    rw [hsp]
    dsimp only
    have hFr1src : ∀ sd ∈ mirrorPlan w bd rest, st2.stat sd.1 = st.stat sd.1 := by
      intro sd hsd
      exact hFr1 sd.1 (by
        intro pr hpr
        exact fun h => (hdisj _ (List.mem_append_left _ (hmemRoot pr hpr))
          _ (List.mem_append_right _ hsd)) h.symm)
    have hokc : ∀ sd ∈ mirrorPlan w bd rest,
        file_op_ok w st2.stat sd.1 = file_op_ok w st.stat sd.1 := by
      intro sd hsd
      rw [file_op_ok, file_op_ok, hFr1src sd hsd]
    have hFr1dest : ∀ sd ∈ mirrorPlan w bd rest, st2.stat sd.2 = st.stat sd.2 := by
      intro sd hsd
      refine hFr1 sd.2 ?_
      intro pr hpr
      have := (List.pairwise_append.mp hdd).2.2 _ (hmemRoot pr hpr) sd hsd
      exact fun h => this h.symm
    obtain ⟨hE, hFr, hT⟩ := ih st2
      (by intro sd hsd
          refine ⟨(hfresh sd (List.mem_append_right _ hsd)).1, ?_⟩
          rw [hFr1dest sd hsd]
          exact (hfresh sd (List.mem_append_right _ hsd)).2)
      (by intro sd hsd sq hsq
          exact hdisj _ (List.mem_append_right _ hsd)
            _ (List.mem_append_right _ hsq))
      (List.pairwise_append.mp hdd).2.1
    refine ⟨?_, ?_, ?_⟩
    · rw [hE, List.filter_congr (fun sd hsd => by rw [hokc sd hsd]), hE1,
        List.filter_append, List.map_append, ← List.append_assoc]
      congr 2
      rw [mirrorPlanRoot, List.filter_map, List.map_map]
      rfl
    · intro p hp
      rw [hFr p (fun sd hsd => hp sd (List.mem_append_right _ hsd))]
      refine hFr1 p ?_
      intro pr hpr
      exact hp _ (List.mem_append_left _ (hmemRoot pr hpr))
    · intro sd hsd hok
      rcases List.mem_append.mp hsd with hsd1 | hsd2
      · obtain ⟨pr, hpr, rfl⟩ := List.mem_map.mp hsd1
        rw [hFr (joinPath (joinPath bd (tagged_base_of root)) pr.2) (by
          intro sq hsq
          have := (List.pairwise_append.mp hdd).2.2 _ (hmemRoot pr hpr) sq hsq
          exact fun h => this h)]
        exact hT1 pr hpr hok
      · rw [hT sd hsd2 (by rw [hokc sd hsd2]; exact hok), hFr1src sd hsd2]

/-- A run that is never cancelled and hits no fatal setup error ends with
the summary log line followed by the `done` terminal event. -/
theorem engineRun_none_done (lp : String → String) (env : Env) (w : World)
    (stat0 : StatMap) (bw : BackupWorker)
    (hnf : w.createFails (mk_backup_target env bw.dest_root bw.zip_mode) = false)
    (hnf2 : bw.zip_mode = false →
      w.createFails (joinPath (mk_backup_target env bw.dest_root false)
        "backup_log.txt") = false) :
    ∃ pre, (engineRun lp env w stat0 bw none).events
      = pre ++ [.log (summaryLine (engineRun lp env w stat0 bw none).errors),
                .done (mk_backup_target env bw.dest_root bw.zip_mode)] := by
  by_cases hz : bw.zip_mode = true
  · rw [hz] at hnf ⊢
    simp only [engineRun, hz, if_true, hnf, Bool.false_eq_true, if_false]
    obtain ⟨E, heq, -⟩ := zipRoots_none_spec lp w stat0
      (count_total_files w (existingSources w bw)) (existingSources w bw)
      ⟨[], [], [], 0,
        ((missingSources w bw).map fun m =>
          Event.log ("[WARN] Source not found or unset (skipping): " ++ m)) ++
          [Event.progress 0 (max (count_total_files w (existingSources w bw)) 1)] ++
          [Event.log ("ZIP mode: " ++ mk_backup_target env bw.dest_root true)]⟩
    rw [heq]
    dsimp only
    exact ⟨_, rfl⟩
  · have hz' : bw.zip_mode = false := by
      rw [← Bool.not_eq_true]
      exact hz
    rw [hz'] at hnf ⊢
    simp only [engineRun, hz', Bool.false_eq_true, if_false, hnf, hnf2 hz']
    obtain ⟨sm, Ls, er, cp, E, heq, -, -⟩ := mirrorRoots_none_spec lp w
      bw.incremental (count_total_files w (existingSources w bw))
      (mk_backup_target env bw.dest_root false) (existingSources w bw)
      ⟨stat0, [], [], 0,
        ((missingSources w bw).map fun m =>
          Event.log ("[WARN] Source not found or unset (skipping): " ++ m)) ++
          [Event.progress 0 (max (count_total_files w (existingSources w bw)) 1)] ++
          [Event.log ("Mirror mode: " ++ mk_backup_target env bw.dest_root false)],
        []⟩
    rw [heq]
    dsimp only
    exact ⟨_, rfl⟩

/-- Error list and archive members of a completed (uncancelled, non-fatal)
archive run, in closed form over the success/failure plans. -/
theorem engineRun_zip_none_fields (lp : String → String) (env : Env)
    (w : World) (stat0 : StatMap) (bw : BackupWorker)
    (hzm : bw.zip_mode = true)
    (hnf : w.createFails (mk_backup_target env bw.dest_root true) = false) :
    (engineRun lp env w stat0 bw none).errors
      = (zipFailPlan lp w stat0 (existingSources w bw)).map zipErrLineOf ∧
    (engineRun lp env w stat0 bw none).zipEntries
      = (zipSuccessPlan lp w stat0 (existingSources w bw)).map
          (fun pa => (lp pa.1, pa.2)) := by
  simp only [engineRun, hzm, if_true, hnf, Bool.false_eq_true, if_false]
  obtain ⟨E, heq, -⟩ := zipRoots_none_spec lp w stat0
    (count_total_files w (existingSources w bw)) (existingSources w bw)
    ⟨[], [], [], 0,
      ((missingSources w bw).map fun m =>
        Event.log ("[WARN] Source not found or unset (skipping): " ++ m)) ++
        [Event.progress 0 (max (count_total_files w (existingSources w bw)) 1)] ++
        [Event.log ("ZIP mode: " ++ mk_backup_target env bw.dest_root true)]⟩
  rw [heq]
  dsimp only
  exact ⟨rfl, rfl⟩

/-- C7: a single failing file never aborts the per-file loop.  Any
uncancelled, non-fatal run ends with the summary line and the `done`
terminal and processes every enumerated file; in archive mode, if exactly
one `(src, arcname)` pair fails its write, the error list is exactly one
`[ERROR] ZIP` line naming that file and every other file is a member of the
archive; in mirror mode over fresh, pairwise-distinct destinations disjoint
from the sources, if exactly one planned `(src, dest)` pair has an
unreadable or un-stat-able source, the error list is exactly one `[ERROR]`
line naming that file and every other source's stat is transferred to its
destination. -/
theorem C7_one_bad_file_does_not_abort (env : Env) (w : World)
    (stat0 : StatMap) (bw : BackupWorker)
    (hwin : env.is_win32 = false)
    (hnf : w.createFails (mk_backup_target env bw.dest_root bw.zip_mode) = false)
    (hnf2 : bw.zip_mode = false →
      w.createFails (joinPath (mk_backup_target env bw.dest_root false)
        "backup_log.txt") = false) :
    (∃ pre, (WorkerPy.run env w stat0 bw none).events
        = pre ++ [.log (summaryLine (WorkerPy.run env w stat0 bw none).errors),
                  .done (mk_backup_target env bw.dest_root bw.zip_mode)]) ∧
    (WorkerPy.run env w stat0 bw none).filesProcessed
        = count_total_files w (existingSources w bw) ∧
    (bw.zip_mode = true →
      ∀ bad, zipFailPlan (fun p => p) w stat0 (existingSources w bw) = [bad] →
        (WorkerPy.run env w stat0 bw none).errors
            = ["[ERROR] ZIP " ++ bad.1 ++ " -> " ++ bad.2 ++ ": " ++ oserror_text] ∧
        (WorkerPy.run env w stat0 bw none).zipEntries
            = zipSuccessPlan (fun p => p) w stat0 (existingSources w bw)) ∧
    (bw.zip_mode = false →
      (∀ sd ∈ mirrorPlan w (mk_backup_target env bw.dest_root false)
          (existingSources w bw), w.isdir sd.2 = false ∧ stat0 sd.2 = none) →
      (∀ sd ∈ mirrorPlan w (mk_backup_target env bw.dest_root false)
          (existingSources w bw),
        ∀ sq ∈ mirrorPlan w (mk_backup_target env bw.dest_root false)
          (existingSources w bw), sd.2 ≠ sq.1) →
      (mirrorPlan w (mk_backup_target env bw.dest_root false)
          (existingSources w bw)).Pairwise (fun a b => a.2 ≠ b.2) →
      ∀ bad, (mirrorPlan w (mk_backup_target env bw.dest_root false)
            (existingSources w bw)).filter
          (fun sd => !file_op_ok w stat0 sd.1) = [bad] →
        (WorkerPy.run env w stat0 bw none).errors
            = ["[ERROR] " ++ bad.1 ++ " -> " ++ bad.2 ++ ": " ++ oserror_text] ∧
        (∀ sd ∈ mirrorPlan w (mk_backup_target env bw.dest_root false)
            (existingSources w bw), file_op_ok w stat0 sd.1 = true →
          (WorkerPy.run env w stat0 bw none).stat sd.2 = stat0 sd.1)) := by
  rw [WorkerPy.run, win_longpath_id env hwin]
  refine ⟨?_, ?_, ?_, ?_⟩
  · exact engineRun_none_done (fun p => p) env w stat0 bw hnf hnf2
  · exact (engineRun_none_progress (fun p => p) env w stat0 bw hnf hnf2).1
  · intro hz bad hbad
    rw [hz] at hnf
    obtain ⟨he, hent⟩ :=
      engineRun_zip_none_fields (fun p => p) env w stat0 bw hz hnf
    refine ⟨?_, ?_⟩
    · rw [he, hbad]
      rfl
    · rw [hent]
      simp
  · intro hz hfresh hdisj hdd bad hbad
    rw [hz] at hnf
    have hf := engineRun_mirror_none_fields (fun p => p) env w stat0 bw hz hnf
      (hnf2 hz)
    have hMix := mirrorRoots_mixed w bw.incremental
      (count_total_files w (existingSources w bw))
      (mk_backup_target env bw.dest_root false) (existingSources w bw)
      ⟨stat0, [], [], 0,
        ((missingSources w bw).map fun m =>
          Event.log ("[WARN] Source not found or unset (skipping): " ++ m)) ++
          [Event.progress 0 (max (count_total_files w (existingSources w bw)) 1)] ++
          [Event.log ("Mirror mode: " ++ mk_backup_target env bw.dest_root false)],
        []⟩ hfresh hdisj hdd
    dsimp only at hMix
    refine ⟨?_, ?_⟩
    · rw [hf.1, hMix.1, hbad]
      rfl
    · intro sd hsd hok
      rw [hf.2.1]
      exact hMix.2.2 sd hsd hok

/-- Witness for C7: on the three-file world with `s/b` unreadable, the
mirror run reports exactly one error line naming `s/b`. -/
theorem C7_one_bad_file_does_not_abort_witness :
    (WorkerPy.run envT1 wFail stFail bwMirror none).errors
      = ["[ERROR] s/b -> d/EliteDangerousBackup_PC_T1/s/b: OSError"] :=
  ((C7_one_bad_file_does_not_abort envT1 wFail stFail bwMirror rfl rfl
      (fun _ => rfl)).2.2.2 rfl (by decide) (by decide) (by decide)
    ("s/b", "d/EliteDangerousBackup_PC_T1/s/b") (by decide)).1
